import Mathlib

/-! Verification of advanced-logger (`src/index.js`).

A shallow embedding of the `Logger` class of `src/index.js` and the properties of it
that the specification states.

Modelling conventions.

* JavaScript values are the inductive type `JSValue`: `undefined`, `null`, booleans,
  integer numbers, strings, arrays, plain objects and instances `new Error(message)`.
  Functions, symbols, non-integer numbers and `Date` instances are outside the model; the
  model of a number is exact for the integers JavaScript holds exactly (magnitude below
  2^53).  A property list denotes the object that has the first binding of each key;
  its properties are enumerated as JavaScript does (`orderKeys`): the array indices in
  ascending order, then the other keys in the order of the list.
* A JavaScript string is a Lean `String`; the operations the source applies to strings
  (concatenation, `split('\n')`, `startsWith`, comparison) are defined on the list of
  characters.
* Node built-ins whose result is decided outside the repository (`__dirname`,
  `path.join`, `path.dirname`, `JSON.parse`, `String.prototype.toUpperCase`, the clock,
  `zlib`, the order of `fs.readdir`) are the fields of a `Host` record, so every theorem
  holds for each behaviour of them.  `JSON.stringify` is defined here (`stringify`), for
  the values of the model, after ECMA-262 (SerializeJSONProperty, QuoteJSONString).
* The file system is a map from paths to contents.  The synchronous part of each method
  is a function on `World`; the callbacks the source registers (`fs.readdir`,
  `fs.unlink`, the `'end'` event of the read stream) are `Task`s in `World.pending`,
  completed one at a time by `runTask`.
* `this.logger.log(...)` hands the call to winston (`Logger.forward`).  The pipeline
  `initializeLogger` configures is modelled after winston 3: the properties of the
  metadata are copied into the info object the printf template reads, the call passes
  when its level is enabled, the Console transport prints the line in the call, and the
  File transport queues the line (`World.sinkQueue`) and appends it to its file later
  (`Logger.flushSink`).  The model of the line is exact for a message without printf
  tokens and a metadata that is no `Error` instance and has no own key `level`,
  `message` or `timestamp`; rotation by `maxsize` is not modelled.
-/

namespace AdvancedLogger

/-! ## JavaScript values -/

/-- JavaScript values of the model.  `obj ps` is the plain object whose own enumerable
properties are the first bindings of the keys of `ps`; `errorObject m` is an instance
`new Error(m)`, which has no enumerable property. -/
inductive JSValue where
  | undefined
  | null
  | boolean (b : Bool)
  | num (n : Int)
  | str (s : String)
  | arr (xs : List JSValue)
  | obj (props : List (String × JSValue))
  | errorObject (message : String)

/-- Property lists of plain objects. -/
abbrev Props := List (String × JSValue)

open JSValue

/-- ToBoolean: the test behind `if (x)`, `x ? a : b`, `x || y` and `x && y`. -/
def truthy : JSValue → Bool
  | undefined => false
  | null => false
  | boolean b => b
  | num n => n != 0
  | str s => s != ""
  | arr _ => true
  | obj _ => true
  | errorObject _ => true

/-- The operator `a || b`. -/
def jsOr (a b : JSValue) : JSValue :=
  if truthy a then a else b

/-- Own property lookup on a key-value list: the first binding of the key, `none` when
the key is absent. -/
def getOwn {α : Type} : List (String × α) → String → Option α
  | [], _ => none
  | (k0, v) :: ps, k => if k0 = k then some v else getOwn ps k

/-- The array index a property key denotes, if any: a canonical decimal numeral below
2^32 - 1. -/
def arrayIndex (k : String) : Option Nat :=
  match k.data with
  | [] => none
  | ['0'] => some 0
  | '0' :: _ => none
  | cs =>
    if cs.all Char.isDigit then
      if cs.foldl (fun acc c => acc * 10 + (c.toNat - 48)) 0 < 4294967295 then
        some (cs.foldl (fun acc c => acc * 10 + (c.toNat - 48)) 0)
      else none
    else none

/-- Adding the array index `i` (the key `k`) to a list that does not have it: after the
smaller indices, before everything else. -/
def insertIndex {α : Type} (i : Nat) (k : String) (v : α) : List (String × α) → List (String × α)
  | [] => [(k, v)]
  | (k0, v0) :: ps =>
    match arrayIndex k0 with
    | some j => if j < i then (k0, v0) :: insertIndex i k v ps else (k, v) :: (k0, v0) :: ps
    | none => (k, v) :: (k0, v0) :: ps

/-- Creating the property `k` on an object that does not have it: an array index goes
to its place among the indices, another key to the end. -/
def insertProp {α : Type} (ps : List (String × α)) (k : String) (v : α) : List (String × α) :=
  match arrayIndex k with
  | some i => insertIndex i k v ps
  | none => ps ++ [(k, v)]

/-- Giving the existing property `k` a new value: the key keeps its place. -/
def replaceProp {α : Type} : List (String × α) → String → α → List (String × α)
  | [], _, _ => []
  | (k0, v0) :: ps, k, v => if k0 = k then (k0, v) :: ps else (k0, v0) :: replaceProp ps k v

/-- The assignment `o[k] = v` on a property list. -/
def setProp {α : Type} (ps : List (String × α)) (k : String) (v : α) : List (String × α) :=
  if (getOwn ps k).isSome then replaceProp ps k v else insertProp ps k v

/-- One step of `orderKeys`: a binding of a key already met is passed over, a new key
is created. -/
def orderStep {α : Type} (acc : List (String × α)) (kv : String × α) : List (String × α) :=
  if (getOwn acc kv.1).isSome then acc else insertProp acc kv.1 kv.2

/-- The own properties a key-value list denotes, in the order JavaScript enumerates
them: the first binding of each key, array indices first in ascending order, then the
other keys in the order of the list. -/
def orderKeys {α : Type} (ps : List (String × α)) : List (String × α) :=
  ps.foldl orderStep []

/-- The keys of a key-value list are pairwise different. -/
def UniqueKeys {α : Type} : List (String × α) → Prop
  | [] => True
  | (k, _) :: ps => getOwn ps k = none ∧ UniqueKeys ps

/-- The expression `o.k` for a key `k` that no built-in prototype defines and that is
not an own property of an `Error` instance (the option names of the configuration,
`level`, `metadata`): a `TypeError` on `undefined` and `null`, the own property of a
plain object, `undefined` everywhere else. -/
def member (o : JSValue) (k : String) : Except String JSValue :=
  match o with
  | undefined => .error "TypeError: Cannot read properties of undefined"
  | null => .error "TypeError: Cannot read properties of null"
  | obj ps => .ok ((getOwn ps k).getD undefined)
  | _ => .ok undefined

/-- The operator `a === b` between a value `a` that was just created (a parsed record
or a field of one) and a value `b` of the caller: primitives are compared by value, and
an array or an object is identical to itself only, never to a fresh one. -/
def strictEq : JSValue → JSValue → Bool
  | undefined, undefined => true
  | null, null => true
  | boolean a, boolean b => a == b
  | num a, num b => a == b
  | str a, str b => a == b
  | _, _ => false

/-- The method `s.startsWith(p)`. -/
def startsWith (s p : String) : Bool :=
  p.data.isPrefixOf s.data

/-- Splitting a character list at every occurrence of `sep`: `split` of the source,
for a one-character separator.  The result is never empty. -/
def splitChars (sep : Char) : List Char → List (List Char)
  | [] => [[]]
  | c :: cs =>
    if c = sep then [] :: splitChars sep cs
    else
      match splitChars sep cs with
      | [] => [[c]]
      | l :: ls => (c :: l) :: ls

/-- The call `s.split('\n')`. -/
def splitLines (s : String) : List String :=
  (splitChars '\n' s.data).map String.mk

/-- The call `xs.slice(0, k)` for an integer `k`: a negative `k` counts from the end. -/
def slice0 {α : Type} (xs : List α) (k : Int) : List α :=
  if k < 0 then xs.take (xs.length + k).toNat else xs.take k.toNat

/-! ## JSON.stringify -/

/-- Lower-case hexadecimal digit. -/
def hexDigit (n : Nat) : Char :=
  if n < 10 then Char.ofNat (48 + n) else Char.ofNat (87 + n)

/-- QuoteJSONString, one character: the two-character escapes, `\u00xx` for the other
control characters, the character itself otherwise. -/
def escapeChar (c : Char) : List Char :=
  if c = '"' then ['\\', '"']
  else if c = '\\' then ['\\', '\\']
  else if c = '\x08' then ['\\', 'b']
  else if c = '\x0c' then ['\\', 'f']
  else if c = '\n' then ['\\', 'n']
  else if c = '\r' then ['\\', 'r']
  else if c = '\t' then ['\\', 't']
  else if c.toNat < 32 then ['\\', 'u', '0', '0', hexDigit (c.toNat / 16), hexDigit (c.toNat % 16)]
  else [c]

/-- QuoteJSONString. -/
def quoteJSON (s : String) : List Char :=
  '"' :: (s.data.flatMap escapeChar ++ ['"'])

/-- Number::toString on an integer. -/
def numberToString (n : Int) : List Char :=
  match n with
  | Int.ofNat m => Nat.toDigits 10 m
  | Int.negSucc m => '-' :: Nat.toDigits 10 (m + 1)

/-- Joining already serialised members with commas. -/
def commaJoin : List (List Char) → List Char
  | [] => []
  | [x] => x
  | x :: y :: rest => x ++ ',' :: commaJoin (y :: rest)

/-- The members an object text lists, from the keys and the serialisations of the
values: a property without a serialisation is left out. -/
def memberTexts : List (String × Option (List Char)) → List (List Char)
  | [] => []
  | (k, some t) :: ps => (quoteJSON k ++ ':' :: t) :: memberTexts ps
  | (_, none) :: ps => memberTexts ps

mutual
/-- SerializeJSONProperty: `none` stands for the result `undefined`. -/
def serialize : JSValue → Option (List Char)
  | undefined => none
  | null => some ['n', 'u', 'l', 'l']
  | boolean true => some ['t', 'r', 'u', 'e']
  | boolean false => some ['f', 'a', 'l', 's', 'e']
  | num n => some (numberToString n)
  | str s => some (quoteJSON s)
  | arr xs => some ('[' :: (commaJoin (serializeElems xs) ++ [']']))
  | obj ps => some ('{' :: (commaJoin (memberTexts (orderKeys (serializePairs ps))) ++ ['}']))
  | errorObject _ => some ['{', '}']
/-- SerializeJSONArray: an element without a serialisation is written `null`. -/
def serializeElems : List JSValue → List (List Char)
  | [] => []
  | x :: xs =>
    (match serialize x with
      | some s => s
      | none => ['n', 'u', 'l', 'l']) :: serializeElems xs
/-- The serialisation of the value of every binding (SerializeJSONObject, before the
properties are enumerated). -/
def serializePairs : List (String × JSValue) → List (String × Option (List Char))
  | [] => []
  | (k, v) :: ps => (k, serialize v) :: serializePairs ps
end

/-- The call `JSON.stringify(v)`: `none` stands for the result `undefined`. -/
def stringify (v : JSValue) : Option String :=
  (serialize v).map String.mk

/-- String conversion of a `JSON.stringify` result inside `+` and template literals. -/
def jsonText (v : JSValue) : String :=
  (stringify v).getD "undefined"

/-- The members of the JSON text of the object `obj ps`: each key with the JSON text of
its value, in the order of the text. -/
def jsonMembers (ps : Props) : List (String × String) :=
  (orderKeys (serializePairs ps)).filterMap (fun kt => kt.2.map (fun t => (kt.1, String.mk t)))

/-- The text of an object from its members. -/
def objectText (members : List (String × String)) : String :=
  String.mk ('{' :: (commaJoin (members.map (fun kt => quoteJSON kt.1 ++ ':' :: kt.2.data)) ++ ['}']))

mutual
/-- ToString, the conversion behind template literals and `+` on strings. -/
def toText : JSValue → String
  | undefined => "undefined"
  | null => "null"
  | boolean true => "true"
  | boolean false => "false"
  | num n => String.mk (numberToString n)
  | str s => s
  | arr xs => ",".intercalate (toTextElems xs)
  | obj _ => "[object Object]"
  | errorObject m => if m = "" then "Error" else "Error: " ++ m
/-- The texts `Array.prototype.join` joins: empty for `undefined` and `null`. -/
def toTextElems : List JSValue → List String
  | [] => []
  | undefined :: xs => "" :: toTextElems xs
  | null :: xs => "" :: toTextElems xs
  | x :: xs => toText x :: toTextElems xs
end

/-! ## The host -/

/-- The built-ins of Node whose result the repository does not decide. -/
structure Host where
  /-- The value of `__dirname`. -/
  moduleDir : String
  /-- The function `path.join`, applied to the list of its arguments. -/
  pathJoin : List String → String
  /-- The function `path.dirname`. -/
  pathDirname : String → String
  /-- The function `JSON.parse`; `.error` stands for the `SyntaxError` it throws. -/
  parse : String → Except String JSValue
  /-- The method `String.prototype.toUpperCase`. -/
  toUpperCase : String → String
  /-- The result of `new Date().toISOString()` at the n-th reading of the clock. -/
  clock : Nat → String
  /-- The text winston's `timestamp({ format: 'YYYY-MM-DD HH:mm:ss' })` gives the n-th
  call handed to it. -/
  sinkTimestamp : Nat → String
  /-- The gzip encoding of a file content. -/
  gzip : String → String
  /-- The result `fs.readdir` hands to its callback for a directory, given the files
  that exist: the error, or the entry names in the order of the listing. -/
  readdir : (String → Option String) → String → Except String (List String)

/-! ## Construction -/

/-- The values the constructor assigns to `this.logLevel`, ..., `this.persistLogs`. -/
structure Options where
  logLevel : JSValue
  logFile : JSValue
  maxSize : JSValue
  maxFiles : JSValue
  enableConsoleLogging : JSValue
  compressLogs : JSValue
  persistLogs : JSValue

/-- The test `v !== undefined`. -/
def isDefined : JSValue → Bool
  | undefined => false
  | _ => true

/-- The default of `logFile`: `path.join(__dirname, 'logs', 'app.log')`. -/
def defaultLogFile (H : Host) : String :=
  H.pathJoin [H.moduleDir, "logs", "app.log"]

/-- The value of `o.k` once `o` is known not to be `undefined` or `null`. -/
def prop (o : JSValue) (k : String) : JSValue :=
  match member o k with
  | .ok v => v
  | .error _ => undefined

/-- Lines 9-15 of the constructor: the seven assignments.  The first property access
throws when `config` is `undefined` or `null`. -/
def resolveOptions (H : Host) (config : JSValue) : Except String Options :=
  match member config "logLevel" with
  | .error e => .error e
  | .ok logLevel =>
    .ok {
      logLevel := jsOr logLevel (str "info")
      logFile := jsOr (prop config "logFile") (str (defaultLogFile H))
      maxSize := jsOr (prop config "maxSize") (num 5242880)
      maxFiles := jsOr (prop config "maxFiles") (num 5)
      enableConsoleLogging :=
        if isDefined (prop config "enableConsoleLogging") then prop config "enableConsoleLogging"
        else boolean true
      compressLogs := jsOr (prop config "compressLogs") (boolean false)
      persistLogs := jsOr (prop config "persistLogs") (boolean true) }

/-- A constructed logger: the fields of `this`.  `logFile` is a string and `maxFiles` a
number in every logger of the model (see `Logger.construct`). -/
structure Logger where
  logLevel : JSValue
  logFile : String
  maxSize : JSValue
  maxFiles : Int
  enableConsoleLogging : JSValue
  compressLogs : JSValue
  persistLogs : JSValue

/-- A call `this.logger.log(level, message, meta)` handed to winston. -/
structure Forwarded where
  level : String
  message : JSValue
  meta : JSValue

/-- An asynchronous operation in flight, with the callback the source gave it. -/
inductive Task where
  /-- The call `fs.readdir(dir, cb)` of `cleanupOldLogFiles`. -/
  | readdir (dir : String)
  /-- The call `fs.unlink(path, cb)` of `cleanupOldLogFiles` or `compressLogFile`; the
  two callbacks are the same function of `path`. -/
  | unlink (path : String)
  /-- The pipeline `inputStream.pipe(gzip).pipe(outputStream)` of `compressLogFile`
  with its `'end'` handler. -/
  | compress (src dst : String)
deriving DecidableEq

/-- The state outside the logger object. -/
structure World where
  /-- The regular files: content by path. -/
  files : String → Option String
  /-- The directories. -/
  dirs : String → Bool
  /-- The calls handed to winston, oldest first. -/
  forwarded : List Forwarded
  /-- The lines the Console transport printed, oldest first. -/
  console : List String
  /-- The lines the File transport took and has not written yet, oldest first. -/
  sinkQueue : List String
  /-- The asynchronous operations in flight. -/
  pending : List Task
  /-- How many times the clock was read. -/
  clockReads : Nat
  /-- An `'error'` event nobody listens to was emitted: the process is gone. -/
  crashed : Bool

/-- The call `fs.writeFileSync(path, content)`. -/
def writeFile (files : String → Option String) (path content : String) : String → Option String :=
  fun p => if p = path then some content else files p

/-- The call `fs.appendFileSync(path, s)`: the file is created when it is missing. -/
def appendFile (files : String → Option String) (path s : String) : String → Option String :=
  fun p => if p = path then some ((files path).getD "" ++ s) else files p

/-- The effect of a successful `fs.unlink(path)`. -/
def removeFile (files : String → Option String) (path : String) : String → Option String :=
  fun p => if p = path then none else files p

/-- The printf template of `initializeLogger` (line 27), for string `timestamp`,
`level` and `message`. -/
def logFormat (H : Host) (level message timestamp : String) (metadata : JSValue) : String :=
  "[" ++ timestamp ++ "] [" ++ H.toUpperCase level ++ "]: " ++ message ++ " "
    ++ (if truthy metadata then jsonText metadata else "")

/-- What `initializeLogger` passes to winston. -/
structure SinkConfig where
  level : JSValue
  silent : Bool
  filename : String
  maxsize : JSValue
  maxFiles : Int

/-- The method `initializeLogger`: the options of `createLogger` and its transports. -/
def Logger.initializeLogger (L : Logger) : SinkConfig :=
  { level := L.logLevel
    silent := !truthy L.enableConsoleLogging
    filename := L.logFile
    maxsize := L.maxSize
    maxFiles := L.maxFiles }

/-- The method `createLogFile`. -/
def Logger.createLogFile (H : Host) (L : Logger) (w : World) : World :=
  let logDirectory := H.pathDirname L.logFile
  let exists_ := w.dirs logDirectory || (w.files logDirectory).isSome
  let dirs := if !exists_ then (fun d => d = logDirectory || w.dirs d) else w.dirs
  { w with dirs := dirs, files := writeFile w.files L.logFile "" }

/-- The synchronous part of `cleanupOldLogFiles`: the listing is requested. -/
def Logger.cleanupOldLogFiles (H : Host) (L : Logger) (w : World) : World :=
  { w with pending := w.pending ++ [Task.readdir (H.pathDirname L.logFile)] }

/-- The constructor.  A `logFile` that is not a string makes `path.dirname` throw; a
`maxFiles` that is not a number would be coerced by `<=` and `-` in the cleanup, which
is outside the model, and is refused here. -/
def Logger.construct (H : Host) (w : World) (config : JSValue) : Except String (Logger × World) :=
  match resolveOptions H config with
  | .error e => .error e
  | .ok o =>
    match o.logFile, o.maxFiles with
    | str file, num n =>
      let L : Logger :=
        { logLevel := o.logLevel, logFile := file, maxSize := o.maxSize, maxFiles := n,
          enableConsoleLogging := o.enableConsoleLogging, compressLogs := o.compressLogs,
          persistLogs := o.persistLogs }
      .ok (L, L.cleanupOldLogFiles H (L.createLogFile H w))
    | str _, _ => .error "maxFiles is not a number"
    | _, _ => .error "TypeError [ERR_INVALID_ARG_TYPE]: The \"path\" argument must be of type string"

/-! ## Retention cleanup -/

/-- Line 68: `files.filter((file) => file.startsWith('app.log'))`. -/
def logFiles (files : List String) : List String :=
  files.filter (fun file => startsWith file "app.log")

/-- Lines 68-74: the entries the callback of `readdir` hands to `fs.unlink`. -/
def filesToDelete (maxFiles : Int) (files : List String) : List String :=
  if ((logFiles files).length : Int) ≤ maxFiles then []
  else slice0 (logFiles files) ((logFiles files).length - maxFiles)

/-! ## Record emission -/

/-- The own enumerable properties a spread `...v` copies (CopyDataProperties): none for
`undefined`, `null`, booleans and numbers, the indexed elements of an array or string,
the properties of an object, each key once. -/
def ownProps : JSValue → Props
  | obj ps => orderKeys ps
  | arr xs => xs.enum.map (fun iv => (String.mk (Nat.toDigits 10 iv.1), iv.2))
  | str s => s.data.enum.map (fun ic => (String.mk (Nat.toDigits 10 ic.1), str (String.mk [ic.2])))
  | _ => []

/-- The object literal `{ error, ...metadata }` of lines 99 and 100. -/
def errorMetadata (error metadata : JSValue) : JSValue :=
  obj ((ownProps metadata).foldl (fun acc kv => setProp acc kv.1 kv.2) [("error", error)])

/-- Line 104: the object literal `{ level, message, timestamp, metadata }`. -/
def logEntry (level : String) (message : JSValue) (timestamp : String) (metadata : JSValue) : JSValue :=
  obj [("level", str level), ("message", message), ("timestamp", str timestamp),
    ("metadata", metadata)]

/-- The priorities of winston's default (npm) levels. -/
def npmLevel (level : String) : Option Nat :=
  if level = "error" then some 0
  else if level = "warn" then some 1
  else if level = "info" then some 2
  else if level = "http" then some 3
  else if level = "verbose" then some 4
  else if level = "debug" then some 5
  else if level = "silly" then some 6
  else none

/-- The level test of a winston transport: a call passes when the configured level is
a known level at least as verbose as the level of the call. -/
def sinkAccepts (configured : JSValue) (level : String) : Bool :=
  match configured, npmLevel level with
  | str l, some n =>
    match npmLevel l with
    | some c => decide (n ≤ c)
    | none => false
  | _, _ => false

/-- The value the printf template finds under `metadata` in the info object: winston
copies the own enumerable properties of the metadata of the call into the info object,
so it is the property `metadata` of that metadata. -/
def sinkMetadata (meta : JSValue) : JSValue :=
  (getOwn (ownProps meta) "metadata").getD undefined

/-- The line the pipeline of `initializeLogger` formats for the call
`this.logger.log(level, message, meta)`, the `k`-th handed to winston. -/
def sinkLine (H : Host) (k : Nat) (level : String) (message meta : JSValue) : String :=
  logFormat H level (toText message) (H.sinkTimestamp k) (sinkMetadata meta)

/-- The call `this.logger.log(level, message, meta)`: when the level passes, the
Console transport prints the line unless it is silent and the File transport takes it. -/
def Logger.forward (H : Host) (L : Logger) (w : World) (level : String) (message meta : JSValue) :
    World :=
  let sink := L.initializeLogger
  let line := sinkLine H w.forwarded.length level message meta
  let w1 := { w with
    forwarded := w.forwarded ++ [{ level := level, message := message, meta := meta }] }
  if sinkAccepts sink.level level then
    { w1 with
      console := if sink.silent then w1.console else w1.console ++ [line],
      sinkQueue := w1.sinkQueue ++ [line] }
  else w1

/-- The File transport writes what it took: every line, followed by a newline, is
appended to the file `initializeLogger` named. -/
def Logger.flushSink (L : Logger) (w : World) : World :=
  { w with
    files := w.sinkQueue.foldl
      (fun files line => appendFile files L.initializeLogger.filename (line ++ "\n")) w.files,
    sinkQueue := [] }

/-- The synchronous part of `compressLogFile`: the pipeline is started. -/
def Logger.compressLogFile (L : Logger) (w : World) : World :=
  { w with pending := w.pending ++ [Task.compress L.logFile (L.logFile ++ ".gz")] }

/-- The method `writeToLogFile`. -/
def Logger.writeToLogFile (H : Host) (L : Logger) (w : World) (level : String)
    (message metadata : JSValue) : World :=
  let entry := logEntry level message (H.clock w.clockReads) metadata
  let logString := jsonText entry ++ "\n"
  let w1 := { w with clockReads := w.clockReads + 1 }
  if truthy L.persistLogs then
    let w2 := { w1 with files := appendFile w1.files L.logFile logString }
    if truthy L.compressLogs then L.compressLogFile w2 else w2
  else w1

/-- The method `log`. -/
def Logger.log (H : Host) (L : Logger) (w : World) (message metadata : JSValue) : World :=
  L.writeToLogFile H (L.forward H w "info" message metadata) "info" message metadata

/-- The method `warn`. -/
def Logger.warn (H : Host) (L : Logger) (w : World) (message metadata : JSValue) : World :=
  L.writeToLogFile H (L.forward H w "warn" message metadata) "warn" message metadata

/-- The method `error`. -/
def Logger.error (H : Host) (L : Logger) (w : World) (message error metadata : JSValue) : World :=
  L.writeToLogFile H (L.forward H w "error" message (errorMetadata error metadata)) "error"
    message (errorMetadata error metadata)

/-! ## Retrieval -/

/-- The step `.map((line) => JSON.parse(line))`: the first line that does not parse
throws. -/
def parseAll (H : Host) : List String → Except String (List JSValue)
  | [] => .ok []
  | line :: rest =>
    match H.parse line with
    | .error e => .error e
    | .ok v =>
      match parseAll H rest with
      | .error e => .error e
      | .ok vs => .ok (v :: vs)

/-- Line 140: `logs.filter((log) => log.level === level)`; reading `level` of `null`
throws. -/
def filterLevel (level : JSValue) : List JSValue → Except String (List JSValue)
  | [] => .ok []
  | log :: rest =>
    match member log "level" with
    | .error e => .error e
    | .ok l =>
      match filterLevel level rest with
      | .error e => .error e
      | .ok kept => .ok (if strictEq l level then log :: kept else kept)

/-- The body of `getLogs` after the file was read. -/
def getLogsOf (H : Host) (logContents : String) (options : JSValue) : Except String (List JSValue) :=
  match parseAll H ((splitLines logContents).filter (fun line => line != "")) with
  | .error e => .error e
  | .ok logs =>
    if truthy options && truthy (prop options "level") then filterLevel (prop options "level") logs
    else .ok logs

/-- The method `getLogs`; `readFileSync` throws when the file is missing. -/
def Logger.getLogs (H : Host) (L : Logger) (w : World) (options : JSValue) :
    Except String (List JSValue) :=
  match w.files L.logFile with
  | none => .error "ENOENT: no such file or directory"
  | some logContents => getLogsOf H logContents options

/-! ## Completion of asynchronous operations -/

/-- The callback of `fs.readdir` in `cleanupOldLogFiles` (lines 62-85). -/
def Logger.onReaddir (H : Host) (L : Logger) (w : World) (result : Except String (List String)) :
    World :=
  match result with
  | .error err => L.error H w (str ("Error cleaning up log files: " ++ err)) undefined undefined
  | .ok files =>
    let logDirectory := H.pathDirname L.logFile
    let unlinks := (filesToDelete L.maxFiles files).map
      (fun file => Task.unlink (H.pathJoin [logDirectory, file]))
    { w with pending := w.pending ++ unlinks }

/-- Completion of `fs.unlink(filePath, cb)`: the file is removed and the callback logs
the deletion, or the file is missing and the callback logs the error (lines 77-83 and
125-131). -/
def Logger.onUnlink (H : Host) (L : Logger) (w : World) (filePath : String) : World :=
  match w.files filePath with
  | some _ =>
    L.log H { w with files := removeFile w.files filePath }
      (str ("Deleted log file '" ++ filePath ++ "'")) undefined
  | none =>
    L.error H w
      (str ("Error deleting log file '" ++ filePath ++ "': Error: ENOENT: no such file or directory, unlink '"
        ++ filePath ++ "'"))
      undefined undefined

/-- Completion of the pipeline of `compressLogFile`: the source was read to its end and
its gzip encoding written, and the `'end'` handler calls `fs.unlink` (lines 122-132).
A missing source makes the read stream emit `'error'`, which has no listener. -/
def Logger.onStreamEnd (H : Host) (w : World) (src dst : String) : World :=
  match w.files src with
  | none => { w with crashed := true }
  | some content =>
    { w with files := writeFile w.files dst (H.gzip content),
             pending := w.pending ++ [Task.unlink src] }

/-- Completion of one asynchronous operation. -/
def Logger.complete (H : Host) (L : Logger) (w : World) : Task → World
  | .readdir dir => L.onReaddir H w (H.readdir w.files dir)
  | .unlink filePath => L.onUnlink H w filePath
  | .compress src dst => Logger.onStreamEnd H w src dst

/-- One turn of the event loop: the `i`-th operation in flight completes.  Nothing
happens when there is no such operation or the process is gone. -/
def Logger.runTask (H : Host) (L : Logger) (w : World) (i : Nat) : World :=
  if w.crashed then w
  else
    match w.pending.get? i with
    | none => w
    | some t => L.complete H { w with pending := w.pending.eraseIdx i } t

/-- The turns of a schedule, in order. -/
def Logger.runTasks (H : Host) (L : Logger) (w : World) (schedule : List Nat) : World :=
  schedule.foldl (fun acc i => L.runTask H acc i) w

/-- No asynchronous operation remains in flight. -/
def World.settled (w : World) : Prop :=
  w.pending = []

/-! ## A reference host

An instance of `Host` on which the model is evaluated at concrete inputs: POSIX paths
without repeated or trailing separators, ASCII upper-casing, and a JSON reader for
texts whose numbers are integers. -/

/-- JSON white space. -/
def isWs (c : Char) : Bool :=
  c = ' ' || c = '\t' || c = '\n' || c = '\r'

/-- Dropping leading white space. -/
def skipWs : List Char → List Char
  | [] => []
  | c :: cs => if isWs c then skipWs cs else c :: cs

/-- The value of a hexadecimal digit. -/
def hexVal (c : Char) : Option Nat :=
  if '0' ≤ c ∧ c ≤ '9' then some (c.toNat - 48)
  else if 'a' ≤ c ∧ c ≤ 'f' then some (c.toNat - 87)
  else if 'A' ≤ c ∧ c ≤ 'F' then some (c.toNat - 55)
  else none

/-- The characters of a JSON string after its opening quote, up to the closing one. -/
def readString : List Char → List Char → Option (String × List Char)
  | [], _ => none
  | '"' :: rest, acc => some (String.mk acc.reverse, rest)
  | '\\' :: 'u' :: a :: b :: c :: d :: rest, acc =>
    match hexVal a, hexVal b, hexVal c, hexVal d with
    | some x, some y, some z, some t =>
      readString rest (Char.ofNat (((x * 16 + y) * 16 + z) * 16 + t) :: acc)
    | _, _, _, _ => none
  | '\\' :: e :: rest, acc =>
    if e = '"' then readString rest ('"' :: acc)
    else if e = '\\' then readString rest ('\\' :: acc)
    else if e = '/' then readString rest ('/' :: acc)
    else if e = 'b' then readString rest ('\x08' :: acc)
    else if e = 'f' then readString rest ('\x0c' :: acc)
    else if e = 'n' then readString rest ('\n' :: acc)
    else if e = 'r' then readString rest ('\r' :: acc)
    else if e = 't' then readString rest ('\t' :: acc)
    else none
  | c :: rest, acc => if c.toNat < 32 ∨ c = '\\' then none else readString rest (c :: acc)

/-- The decimal digits at the head of the input. -/
def readDigits : List Char → Nat → Nat × List Char
  | [], n => (n, [])
  | c :: cs, n => if c.isDigit then readDigits cs (n * 10 + (c.toNat - 48)) else (n, c :: cs)

/-- A number whose text is an integer; a fraction or an exponent is refused. -/
def readNumber (negative : Bool) (cs : List Char) : Option (JSValue × List Char) :=
  match cs with
  | [] => none
  | c :: _ =>
    if c.isDigit then
      let r := readDigits cs 0
      match r.2 with
      | '.' :: _ => none
      | 'e' :: _ => none
      | 'E' :: _ => none
      | rest => some (num (if negative then -(r.1 : Int) else r.1), rest)
    else none

mutual
/-- One JSON value at the head of the input. -/
def readValue : Nat → List Char → Option (JSValue × List Char)
  | 0, _ => none
  | fuel + 1, cs =>
    match skipWs cs with
    | 'n' :: 'u' :: 'l' :: 'l' :: rest => some (null, rest)
    | 't' :: 'r' :: 'u' :: 'e' :: rest => some (boolean true, rest)
    | 'f' :: 'a' :: 'l' :: 's' :: 'e' :: rest => some (boolean false, rest)
    | '"' :: rest =>
      match readString rest [] with
      | some (s, rest1) => some (str s, rest1)
      | none => none
    | '[' :: rest =>
      match skipWs rest with
      | ']' :: rest1 => some (arr [], rest1)
      | _ =>
        match readElems fuel rest with
        | some (xs, rest1) => some (arr xs, rest1)
        | none => none
    | '{' :: rest =>
      match skipWs rest with
      | '}' :: rest1 => some (obj [], rest1)
      | _ =>
        match readMembers fuel rest [] with
        | some (ps, rest1) => some (obj ps, rest1)
        | none => none
    | '-' :: rest => readNumber true rest
    | other => readNumber false other
/-- The elements of a non-empty array, up to its closing bracket. -/
def readElems : Nat → List Char → Option (List JSValue × List Char)
  | 0, _ => none
  | fuel + 1, cs =>
    match readValue fuel cs with
    | none => none
    | some (v, rest) =>
      match skipWs rest with
      | ',' :: rest1 =>
        match readElems fuel rest1 with
        | some (vs, rest2) => some (v :: vs, rest2)
        | none => none
      | ']' :: rest1 => some ([v], rest1)
      | _ => none
/-- The members of a non-empty object, up to its closing brace; a repeated key keeps
its place and takes the later value. -/
def readMembers : Nat → List Char → Props → Option (Props × List Char)
  | 0, _, _ => none
  | fuel + 1, cs, acc =>
    match skipWs cs with
    | '"' :: rest =>
      match readString rest [] with
      | none => none
      | some (k, rest1) =>
        match skipWs rest1 with
        | ':' :: rest2 =>
          match readValue fuel rest2 with
          | none => none
          | some (v, rest3) =>
            match skipWs rest3 with
            | ',' :: rest4 => readMembers fuel rest4 (setProp acc k v)
            | '}' :: rest4 => some (setProp acc k v, rest4)
            | _ => none
        | _ => none
    | _ => none
end

/-- The reader of JSON texts: one value, white space around it, nothing else. -/
def readJSON (text : String) : Except String JSValue :=
  match readValue (text.data.length + 1) text.data with
  | some (v, rest) =>
    match skipWs rest with
    | [] => .ok v
    | _ => .error "SyntaxError: Unexpected non-whitespace character after JSON"
  | none => .error "SyntaxError: Unexpected token in JSON"

/-- The characters before the last `/` of a path, `.` when it has none. -/
def posixDirname (path : String) : String :=
  match (path.data.reverse.dropWhile (fun c => c != '/')).reverse with
  | [] => "."
  | [_] => "/"
  | cs => String.mk cs.dropLast

/-- The reference host. -/
def refHost : Host where
  moduleDir := "/srv/app"
  pathJoin := fun parts => "/".intercalate parts
  pathDirname := posixDirname
  parse := readJSON
  toUpperCase := fun s => String.mk (s.data.map Char.toUpper)
  clock := fun n => "2024-01-01T00:00:00.00" ++ String.mk (Nat.toDigits 10 (n % 10)) ++ "Z"
  sinkTimestamp := fun n => "2024-01-01 00:00:0" ++ String.mk (Nat.toDigits 10 (n % 10))
  gzip := fun s => "gzip(" ++ s ++ ")"
  readdir := fun _ _ => .ok ["app.log"]

/-- A world with no file, no directory and nothing in flight. -/
def emptyWorld : World where
  files := fun _ => none
  dirs := fun _ => false
  forwarded := []
  console := []
  sinkQueue := []
  pending := []
  clockReads := 0
  crashed := false

/-- The base name of a path, after the words of the specification ("the active file's
base name"): the characters after its last `/`. -/
def baseName (path : String) : String :=
  String.mk (path.data.reverse.takeWhile (fun c => c != '/')).reverse

/-- The rotated file set as the specification words it: the entries whose name starts
with the base name of the active file path. -/
def specLogFiles (logFile : String) (files : List String) : List String :=
  files.filter (fun file => startsWith file (baseName logFile))

/-! ## Definitions used to state the properties -/

/-- A logger with the default options and the given retention count, on the active file
`logs/app.log`. -/
def sampleLogger (maxFiles : Int) : Logger where
  logLevel := str "info"
  logFile := "logs/app.log"
  maxSize := num 5242880
  maxFiles := maxFiles
  enableConsoleLogging := boolean true
  compressLogs := boolean false
  persistLogs := boolean true

/-- The lines `getLogs` parses: the non-empty ones, in file order. -/
def nonEmptyLines (logContents : String) : List String :=
  (splitLines logContents).filter (fun line => line != "")

/-- A world whose only file is `logs/app.log`, with the given content. -/
def worldWithLog (logContents : String) : World :=
  { emptyWorld with files := writeFile emptyWorld.files "logs/app.log" logContents }

/-- A call of one of the three emitting methods, with its arguments. -/
inductive Call where
  | log (message metadata : JSValue)
  | warn (message metadata : JSValue)
  | error (message error metadata : JSValue)

/-- The level a call writes. -/
def Call.level : Call → String
  | .log _ _ => "info"
  | .warn _ _ => "warn"
  | .error _ _ _ => "error"

/-- The message of a call. -/
def Call.message : Call → JSValue
  | .log m _ => m
  | .warn m _ => m
  | .error m _ _ => m

/-- The metadata a call hands to `writeToLogFile`. -/
def Call.metadata : Call → JSValue
  | .log _ md => md
  | .warn _ md => md
  | .error _ e md => errorMetadata e md

/-- Performing a call. -/
def Logger.perform (H : Host) (L : Logger) (w : World) : Call → World
  | .log m md => L.log H w m md
  | .warn m md => L.warn H w m md
  | .error m e md => L.error H w m e md

/-- Performing calls one after the other, no callback running in between. -/
def Logger.performAll (H : Host) (L : Logger) (w : World) (calls : List Call) : World :=
  calls.foldl (fun acc c => L.perform H acc c) w

/-- The record a call builds when the clock was read `k` times before. -/
def Call.entry (H : Host) (k : Nat) (c : Call) : JSValue :=
  logEntry c.level c.message (H.clock k) c.metadata

/-- The records of a sequence of calls, the first one at clock reading `k`. -/
def entries (H : Host) : Nat → List Call → List JSValue
  | _, [] => []
  | k, c :: cs => c.entry H k :: entries H (k + 1) cs

mutual
/-- The value the JSON text of `v` denotes: what is left of `v` after `JSON.stringify`.
A property without a serialisation is gone, an array element without one is `null`, an
`Error` instance is the empty object. -/
def jsonImage : JSValue → JSValue
  | undefined => undefined
  | null => null
  | boolean b => boolean b
  | num n => num n
  | str s => str s
  | arr xs => arr (jsonImageElems xs)
  | obj ps => obj ((orderKeys (jsonImagePairs ps)).filter (fun kv => isDefined kv.2))
  | errorObject _ => obj []
/-- The elements of the value an array text denotes. -/
def jsonImageElems : List JSValue → List JSValue
  | [] => []
  | undefined :: xs => null :: jsonImageElems xs
  | x :: xs => jsonImage x :: jsonImageElems xs
/-- The image of the value of every binding. -/
def jsonImagePairs : List (String × JSValue) → List (String × JSValue)
  | [] => []
  | (k, v) :: ps => (k, jsonImage v) :: jsonImagePairs ps
end

/-- The content `appendFileSync` builds from the texts of the records: each one followed
by a newline. -/
def concatLines : List String → String
  | [] => ""
  | t :: ts => (t ++ "\n") ++ concatLines ts

/-- The logger `new Logger({})` builds on the reference host. -/
def defaultLogger : Logger where
  logLevel := str "info"
  logFile := "/srv/app/logs/app.log"
  maxSize := num 5242880
  maxFiles := 5
  enableConsoleLogging := boolean true
  compressLogs := boolean false
  persistLogs := boolean true

/-- The world right after `new Logger({})` on the reference host, from the empty world. -/
def freshWorld : World :=
  defaultLogger.cleanupOldLogFiles refHost (defaultLogger.createLogFile refHost emptyWorld)

/-- The state of a logger whose compression cycle is running: the process is alive, the
active file exists, every pipeline in flight reads the active file, and an operation
other than a directory listing is in flight. -/
def Busy (L : Logger) (w : World) : Prop :=
  w.crashed = false ∧
  (w.files L.logFile).isSome = true ∧
  (∀ src dst, Task.compress src dst ∈ w.pending → src = L.logFile) ∧
  (∃ t ∈ w.pending, ∀ dir, t ≠ Task.readdir dir)

/-- The logger `new Logger({compressLogs: true})` builds on the reference host. -/
def compressingLogger : Logger :=
  { defaultLogger with compressLogs := boolean true }

/-! ## Key-value lists -/

theorem getOwn_append {α : Type} (ps qs : List (String × α)) (k : String) :
    getOwn (ps ++ qs) k = match getOwn ps k with
      | some v => some v
      | none => getOwn qs k := by
  induction ps with
  | nil => rfl
  | cons kv ps ih =>
    obtain ⟨k1, v1⟩ := kv
    by_cases h : k1 = k
    · simp [getOwn, h]
    · simp [getOwn, h, ih]

theorem getOwn_insertIndex {α : Type} (i : Nat) (k : String) (v : α) (ps : List (String × α))
    (k1 : String) (h : getOwn ps k = none) :
    getOwn (insertIndex i k v ps) k1 = if k = k1 then some v else getOwn ps k1 := by
  induction ps with
  | nil => simp [insertIndex, getOwn]
  | cons kv ps ih =>
    obtain ⟨k0, v0⟩ := kv
    have hk0 : ¬ k0 = k := by
      intro e
      simp [getOwn, e] at h
    have hrest : getOwn ps k = none := by
      simpa [getOwn, hk0] using h
    simp only [insertIndex]
    split
    · split
      · by_cases h1 : k0 = k1
        · have : ¬ k = k1 := fun e => hk0 (h1.trans e.symm)
          simp [getOwn, h1, this]
        · simp [getOwn, h1, ih hrest]
      · simp [getOwn]
    · simp [getOwn]

theorem getOwn_insertProp {α : Type} (ps : List (String × α)) (k : String) (v : α) (k1 : String)
    (h : getOwn ps k = none) :
    getOwn (insertProp ps k v) k1 = if k = k1 then some v else getOwn ps k1 := by
  unfold insertProp
  split
  · exact getOwn_insertIndex _ k v ps k1 h
  · rw [getOwn_append]
    by_cases hk : k = k1
    · subst hk
      simp [h, getOwn]
    · cases hg : getOwn ps k1 <;> simp [getOwn, hk]

theorem getOwn_replaceProp {α : Type} (ps : List (String × α)) (k : String) (v : α) (k1 : String)
    (h : (getOwn ps k).isSome = true) :
    getOwn (replaceProp ps k v) k1 = if k = k1 then some v else getOwn ps k1 := by
  induction ps with
  | nil => simp [getOwn] at h
  | cons kv ps ih =>
    obtain ⟨k0, v0⟩ := kv
    by_cases h0 : k0 = k
    · subst h0
      by_cases h1 : k0 = k1
      · simp [replaceProp, getOwn, h1]
      · simp [replaceProp, getOwn, h1]
    · have hrest : (getOwn ps k).isSome = true := by
        simpa [getOwn, h0] using h
      by_cases h1 : k0 = k1
      · subst h1
        have h2 : ¬ k = k0 := fun e => h0 e.symm
        simp only [replaceProp, getOwn, h0, h2, if_true, if_false]
      · simp only [replaceProp, getOwn, h0, h1, if_false, ih hrest]

theorem getOwn_setProp {α : Type} (ps : List (String × α)) (k1 k : String) (v : α) :
    getOwn (setProp ps k v) k1 = if k = k1 then some v else getOwn ps k1 := by
  unfold setProp
  split
  · next h => exact getOwn_replaceProp ps k v k1 h
  · next h =>
    have : getOwn ps k = none := by
      cases hg : getOwn ps k with
      | none => rfl
      | some x => simp [hg] at h
    exact getOwn_insertProp ps k v k1 this

theorem uniqueKeys_insertIndex {α : Type} (i : Nat) (k : String) (v : α) (ps : List (String × α))
    (h : getOwn ps k = none) (hu : UniqueKeys ps) : UniqueKeys (insertIndex i k v ps) := by
  induction ps with
  | nil => exact ⟨rfl, trivial⟩
  | cons kv ps ih =>
    obtain ⟨k0, v0⟩ := kv
    obtain ⟨hu0, hu1⟩ := hu
    have hk0 : ¬ k0 = k := by
      intro e
      simp [getOwn, e] at h
    have hrest : getOwn ps k = none := by
      simpa [getOwn, hk0] using h
    simp only [insertIndex]
    split
    · split
      · refine ⟨?_, ih hrest hu1⟩
        rw [getOwn_insertIndex _ _ _ _ _ hrest]
        have : ¬ k = k0 := fun e => hk0 e.symm
        simp [this, hu0]
      · exact ⟨h, hu0, hu1⟩
    · exact ⟨h, hu0, hu1⟩

theorem uniqueKeys_append_one {α : Type} (ps : List (String × α)) (k : String) (v : α)
    (h : getOwn ps k = none) (hu : UniqueKeys ps) : UniqueKeys (ps ++ [(k, v)]) := by
  induction ps with
  | nil => exact ⟨rfl, trivial⟩
  | cons kv ps ih =>
    obtain ⟨k0, v0⟩ := kv
    obtain ⟨hu0, hu1⟩ := hu
    have hk0 : ¬ k0 = k := by
      intro e
      simp [getOwn, e] at h
    have hrest : getOwn ps k = none := by
      simpa [getOwn, hk0] using h
    refine ⟨?_, ih hrest hu1⟩
    show getOwn (ps ++ [(k, v)]) k0 = none
    rw [getOwn_append, hu0]
    have : ¬ k = k0 := fun e => hk0 e.symm
    simp [getOwn, this]

theorem uniqueKeys_insertProp {α : Type} (ps : List (String × α)) (k : String) (v : α)
    (h : getOwn ps k = none) (hu : UniqueKeys ps) : UniqueKeys (insertProp ps k v) := by
  unfold insertProp
  split
  · exact uniqueKeys_insertIndex _ k v ps h hu
  · exact uniqueKeys_append_one ps k v h hu

theorem orderKeys_eq {α : Type} (ps : List (String × α)) : orderKeys ps = ps.foldl orderStep [] :=
  rfl

theorem getOwn_orderStep {α : Type} (acc : List (String × α)) (kv : String × α) (k : String) :
    getOwn (orderStep acc kv) k = match getOwn acc k with
      | some v => some v
      | none => if kv.1 = k then some kv.2 else none := by
  unfold orderStep
  split
  · next h =>
    cases hg : getOwn acc k with
    | some v => rfl
    | none =>
      have : ¬ kv.1 = k := by
        intro e
        rw [e, hg] at h
        simp at h
      simp [this]
  · next h =>
    have hn : getOwn acc kv.1 = none := by
      cases hg : getOwn acc kv.1 with
      | none => rfl
      | some x => simp [hg] at h
    rw [getOwn_insertProp _ _ _ _ hn]
    by_cases hk : kv.1 = k
    · subst hk
      simp [hn]
    · cases hg : getOwn acc k <;> simp [hk]

theorem uniqueKeys_orderStep {α : Type} (acc : List (String × α)) (kv : String × α)
    (hu : UniqueKeys acc) : UniqueKeys (orderStep acc kv) := by
  unfold orderStep
  split
  · exact hu
  · next h =>
    have hn : getOwn acc kv.1 = none := by
      cases hg : getOwn acc kv.1 with
      | none => rfl
      | some x => simp [hg] at h
    exact uniqueKeys_insertProp _ _ _ hn hu

theorem getOwn_foldl_orderStep {α : Type} (ps : List (String × α)) :
    ∀ (acc : List (String × α)) (k : String),
      getOwn (ps.foldl orderStep acc) k = match getOwn acc k with
        | some v => some v
        | none => getOwn ps k := by
  induction ps with
  | nil =>
    intro acc k
    simp only [List.foldl_nil]
    cases hg : getOwn acc k <;> simp [getOwn]
  | cons kv ps ih =>
    intro acc k
    obtain ⟨k0, v0⟩ := kv
    rw [List.foldl_cons, ih, getOwn_orderStep]
    cases hg : getOwn acc k with
    | some v => rfl
    | none =>
      by_cases hk : k0 = k
      · simp [getOwn, hk]
      · simp [getOwn, hk]

theorem uniqueKeys_foldl_orderStep {α : Type} (ps : List (String × α)) :
    ∀ (acc : List (String × α)), UniqueKeys acc → UniqueKeys (ps.foldl orderStep acc) := by
  induction ps with
  | nil => intro acc h; exact h
  | cons kv ps ih =>
    intro acc h
    exact ih _ (uniqueKeys_orderStep acc kv h)

theorem getOwn_orderKeys {α : Type} (ps : List (String × α)) (k : String) :
    getOwn (orderKeys ps) k = getOwn ps k := by
  rw [orderKeys_eq, getOwn_foldl_orderStep]
  rfl

theorem uniqueKeys_orderKeys {α : Type} (ps : List (String × α)) : UniqueKeys (orderKeys ps) := by
  rw [orderKeys_eq]
  exact uniqueKeys_foldl_orderStep ps [] trivial

/-- Assigning the bindings of a list with pairwise different keys, in order. -/
theorem getOwn_foldl_setProp (src : Props) (h : UniqueKeys src) (t : Props) (k : String) :
    getOwn (src.foldl (fun acc kv => setProp acc kv.1 kv.2) t) k
      = match getOwn src k with
        | some v => some v
        | none => getOwn t k := by
  induction src generalizing t with
  | nil => simp [getOwn]
  | cons kv src ih =>
    obtain ⟨k1, v1⟩ := kv
    obtain ⟨h1, h2⟩ := h
    rw [List.foldl_cons, ih h2, getOwn_setProp]
    by_cases hk : k1 = k
    · subst hk
      simp [getOwn, h1]
    · simp [getOwn, hk]

/-! ## The members of a JSON object text -/

theorem getOwn_serializePairs (ps : Props) (k : String) :
    getOwn (serializePairs ps) k = (getOwn ps k).map serialize := by
  induction ps with
  | nil => simp [serializePairs, getOwn]
  | cons kv ps ih =>
    obtain ⟨k0, v0⟩ := kv
    by_cases h : k0 = k
    · simp [serializePairs, getOwn, h]
    · simp [serializePairs, getOwn, h, ih]

theorem getOwn_filterMap_unique {β γ : Type} (f : β → γ) (l : List (String × Option β))
    (hu : UniqueKeys l) (k : String) :
    getOwn (l.filterMap (fun kt => kt.2.map (fun t => (kt.1, f t)))) k
      = (getOwn l k).bind (fun o => o.map f) := by
  induction l with
  | nil => rfl
  | cons kt l ih =>
    obtain ⟨k0, o⟩ := kt
    obtain ⟨h0, h1⟩ := hu
    have ih1 := ih h1
    cases o with
    | none =>
      by_cases hk : k0 = k
      · subst hk
        have : getOwn (l.filterMap (fun kt => kt.2.map (fun t => (kt.1, f t)))) k0 = none := by
          rw [ih1, h0]; rfl
        simp [List.filterMap, getOwn, this]
      · simp [List.filterMap, getOwn, hk, ih1]
    | some t =>
      by_cases hk : k0 = k
      · simp [List.filterMap, getOwn, hk]
      · simp [List.filterMap, getOwn, hk, ih1]

/-- The JSON text of an object lists, under each key, the JSON text of the value of the
key; a key whose value has no JSON text is not listed. -/
theorem getOwn_jsonMembers (ps : Props) (k : String) :
    getOwn (jsonMembers ps) k = (getOwn ps k).bind stringify := by
  unfold jsonMembers
  rw [getOwn_filterMap_unique String.mk _ (uniqueKeys_orderKeys _), getOwn_orderKeys,
    getOwn_serializePairs]
  cases getOwn ps k <;> rfl

theorem memberTexts_eq (l : List (String × Option (List Char))) :
    memberTexts l
      = (l.filterMap (fun kt => kt.2.map (fun t => (kt.1, String.mk t)))).map
          (fun kt => quoteJSON kt.1 ++ ':' :: kt.2.data) := by
  induction l with
  | nil => rfl
  | cons kt l ih =>
    obtain ⟨k0, o⟩ := kt
    cases o with
    | none => simp [memberTexts, List.filterMap, ih]
    | some t => simp [memberTexts, List.filterMap, ih]

/-- The JSON text of an object is the text of its members. -/
theorem jsonText_obj (ps : Props) : jsonText (obj ps) = objectText (jsonMembers ps) := by
  simp [jsonText, stringify, serialize, objectText, jsonMembers, memberTexts_eq]

/-! ## The call handed to winston -/

theorem forward_frame (H : Host) (L : Logger) (w : World) (level : String)
    (message meta : JSValue) :
    (L.forward H w level message meta).files = w.files ∧
    (L.forward H w level message meta).pending = w.pending ∧
    (L.forward H w level message meta).clockReads = w.clockReads ∧
    (L.forward H w level message meta).crashed = w.crashed ∧
    (L.forward H w level message meta).forwarded
      = w.forwarded ++ [{ level := level, message := message, meta := meta }] := by
  simp only [Logger.forward]
  by_cases h : sinkAccepts L.initializeLogger.level level = true
  · simp [h]
  · simp [h]

/-! ## Option defaulting -/

/-- C9: for every configuration object each option that is absent (its property reads
`undefined`) resolves to its documented default, whatever the other options are:
`logLevel` to "info", `logFile` to `logs/app.log` under the module directory, `maxSize`
to 5242880, `maxFiles` to 5, `enableConsoleLogging` to true, `compressLogs` to false and
`persistLogs` to true; and the constructor, which completes whenever the resolved
`logFile` is a string and the resolved `maxFiles` a number, builds the logger with the
resolved values. -/
theorem resolveOptions_defaults (H : Host) (ps : Props) :
    ∃ o, resolveOptions H (obj ps) = .ok o ∧
      (prop (obj ps) "logLevel" = undefined → o.logLevel = str "info") ∧
      (prop (obj ps) "logFile" = undefined →
        o.logFile = str (H.pathJoin [H.moduleDir, "logs", "app.log"])) ∧
      (prop (obj ps) "maxSize" = undefined → o.maxSize = num 5242880) ∧
      (prop (obj ps) "maxFiles" = undefined → o.maxFiles = num 5) ∧
      (prop (obj ps) "enableConsoleLogging" = undefined → o.enableConsoleLogging = boolean true) ∧
      (prop (obj ps) "compressLogs" = undefined → o.compressLogs = boolean false) ∧
      (prop (obj ps) "persistLogs" = undefined → o.persistLogs = boolean true) ∧
      (∀ (w : World) (file : String) (n : Int), o.logFile = str file → o.maxFiles = num n →
        ∃ L w1, Logger.construct H w (obj ps) = .ok (L, w1) ∧
          L.logLevel = o.logLevel ∧ L.logFile = file ∧ L.maxSize = o.maxSize ∧
          L.maxFiles = n ∧ L.enableConsoleLogging = o.enableConsoleLogging ∧
          L.compressLogs = o.compressLogs ∧ L.persistLogs = o.persistLogs) := by
  refine ⟨_, rfl, ?_, ?_, ?_, ?_, ?_, ?_, ?_, ?_⟩
  · intro h; simp_all [prop, member, jsOr, truthy]
  · intro h; simp_all [prop, member, jsOr, truthy, defaultLogFile]
  · intro h; simp_all [prop, member, jsOr, truthy]
  · intro h; simp_all [prop, member, jsOr, truthy]
  · intro h; simp_all [prop, member, isDefined]
  · intro h; simp_all [prop, member, jsOr, truthy]
  · intro h; simp_all [prop, member, jsOr, truthy]
  · intro w file n hf hn
    have hr : resolveOptions H (obj ps) = .ok
        { logLevel := jsOr (prop (obj ps) "logLevel") (str "info")
          logFile := jsOr (prop (obj ps) "logFile") (str (defaultLogFile H))
          maxSize := jsOr (prop (obj ps) "maxSize") (num 5242880)
          maxFiles := jsOr (prop (obj ps) "maxFiles") (num 5)
          enableConsoleLogging :=
            if isDefined (prop (obj ps) "enableConsoleLogging")
            then prop (obj ps) "enableConsoleLogging" else boolean true
          compressLogs := jsOr (prop (obj ps) "compressLogs") (boolean false)
          persistLogs := jsOr (prop (obj ps) "persistLogs") (boolean true) } := rfl
    simp only at hf hn
    simp only [Logger.construct, hr, hf, hn]
    exact ⟨_, _, rfl, rfl, rfl, rfl, rfl, rfl, rfl, rfl⟩

/-! ## Retention selection -/

theorem slice0_of_nonneg {α : Type} (xs : List α) (k : Nat) : slice0 xs (k : Int) = xs.take k := by
  simp [slice0]

theorem filesToDelete_le (files : List String) (n : Nat) (h : (logFiles files).length ≤ n) :
    filesToDelete (n : Int) files = [] := by
  have : ((logFiles files).length : Int) ≤ (n : Int) := by exact_mod_cast h
  simp [filesToDelete, this]

theorem filesToDelete_gt (files : List String) (n : Nat) (h : n < (logFiles files).length) :
    filesToDelete (n : Int) files = (logFiles files).take ((logFiles files).length - n) := by
  have h1 : ¬ ((logFiles files).length : Int) ≤ (n : Int) := by
    intro hle
    have : (logFiles files).length ≤ n := by exact_mod_cast hle
    omega
  have h2 : (((logFiles files).length : Int) - (n : Int)) = (((logFiles files).length - n : Nat) : Int) := by
    omega
  rw [filesToDelete, if_neg h1, h2, slice0_of_nonneg]

theorem mem_logFiles {files : List String} {f : String} (h : f ∈ logFiles files) :
    f ∈ files ∧ startsWith f "app.log" = true := by
  simpa [logFiles] using h

/-- C4: for every directory listing and every positive integer `maxFiles`, with `F` the
entries of the listing that match the log-file prefix, in listing order: when
`|F| <= maxFiles` the cleanup selects no file; otherwise it selects exactly the first
`|F| - maxFiles` entries of `F`, the `maxFiles` entries that remain are the last ones of
`F` in their order, and the callback hands exactly the selected entries to `fs.unlink`.
An entry that does not match the prefix is never selected. -/
theorem filesToDelete_retention (H : Host) (L : Logger) (w : World) (files : List String)
    (n : Nat) (hn : 0 < n) (hL : L.maxFiles = (n : Int)) :
    ((logFiles files).length ≤ n → filesToDelete L.maxFiles files = []) ∧
    (n < (logFiles files).length →
      filesToDelete L.maxFiles files = (logFiles files).take ((logFiles files).length - n) ∧
      logFiles files
        = filesToDelete L.maxFiles files ++ (logFiles files).drop ((logFiles files).length - n) ∧
      ((logFiles files).drop ((logFiles files).length - n)).length = n) ∧
    (∀ f ∈ filesToDelete L.maxFiles files, f ∈ files ∧ startsWith f "app.log" = true) ∧
    (L.onReaddir H w (.ok files)).pending
      = w.pending ++ (filesToDelete L.maxFiles files).map
          (fun file => Task.unlink (H.pathJoin [H.pathDirname L.logFile, file])) := by
  rw [hL]
  refine ⟨filesToDelete_le files n, ?_, ?_, ?_⟩
  · intro h
    rw [filesToDelete_gt files n h]
    refine ⟨rfl, (List.take_append_drop _ _).symm, ?_⟩
    rw [List.length_drop]
    omega
  · intro f hf
    by_cases h : n < (logFiles files).length
    · rw [filesToDelete_gt files n h] at hf
      exact mem_logFiles (List.mem_of_mem_take hf)
    · rw [filesToDelete_le files n (by omega)] at hf
      simp at hf
  · simp [Logger.onReaddir, hL]

theorem filesToDelete_retention_witness :
    (sampleLogger 2).maxFiles = ((2 : Nat) : Int) ∧
    filesToDelete (sampleLogger 2).maxFiles
        ["app.log", "notes.txt", "app.log.1", "app.log.2", "app.log.3"]
      = ["app.log", "app.log.1"] ∧
    (logFiles ["app.log", "notes.txt", "app.log.1", "app.log.2", "app.log.3"]).drop (4 - 2)
      = ["app.log.2", "app.log.3"] ∧
    ((logFiles ["app.log", "notes.txt", "app.log.1", "app.log.2", "app.log.3"]).drop
      ((logFiles ["app.log", "notes.txt", "app.log.1", "app.log.2", "app.log.3"]).length - 2)).length
      = 2 :=
  ⟨rfl, by decide, by decide,
    ((filesToDelete_retention refHost (sampleLogger 2) emptyWorld
      ["app.log", "notes.txt", "app.log.1", "app.log.2", "app.log.3"] 2 (by decide) rfl).2.1
        (by decide)).2.2⟩

/-! ## The set of files the cleanup considers -/

/-- C8 (the code at a failing input): with the active file `logs/server.log` and the
listing `server.log`, `server.log.gz`, `app.log.1`, the cleanup considers `app.log.1`
only, the entries that start with the base name `server.log` are `server.log` and
`server.log.gz`, and the active file `server.log` is not considered; the set considered
is the same for every active file path. -/
theorem logFiles_ignores_logFile :
    baseName "logs/server.log" = "server.log" ∧
    logFiles ["server.log", "server.log.gz", "app.log.1"] = ["app.log.1"] ∧
    specLogFiles "logs/server.log" ["server.log", "server.log.gz", "app.log.1"]
      = ["server.log", "server.log.gz"] ∧
    "server.log" ∉ logFiles ["server.log", "server.log.gz", "app.log.1"] ∧
    filesToDelete 1 ["server.log", "server.log.gz", "app.log.1"] = [] := by
  decide

/-! ## The metadata of `error` -/

/-- C6, as amended: for every message, error value `e` and caller metadata mapping `m`
(an absent `m` behaves as the empty mapping), the metadata of the record
`error(message, e, m)` emits contains every key-value pair of `m`, and contains `e` under
the key `error` whenever `m` has no key `error` of its own.  The record it persists (when persistence is on) is the JSON text of
the record with that metadata: under each key of `m` the JSON text of its value, under
`error` the JSON text of `e` when `m` has no key `error`, and no key for a value that
has no JSON text (`undefined`). -/
theorem error_metadata (H : Host) (L : Logger) (w : World) (message e : JSValue) (m : Props) :
    ∃ md : Props,
      errorMetadata e (obj m) = obj md ∧
      (∀ k v, getOwn m k = some v → getOwn md k = some v) ∧
      (getOwn m "error" = none → getOwn md "error" = some e) ∧
      errorMetadata e undefined = obj [("error", e)] ∧
      L.error H w message e undefined = L.error H w message e (obj []) ∧
      (L.error H w message e (obj m)).forwarded
        = w.forwarded ++ [{ level := "error", message := message, meta := obj md }] ∧
      (truthy L.persistLogs = true →
        (L.error H w message e (obj m)).files L.logFile
          = some ((w.files L.logFile).getD ""
              ++ (jsonText (logEntry "error" message (H.clock w.clockReads) (obj md)) ++ "\n"))) ∧
      getOwn
          (jsonMembers [("level", str "error"), ("message", message),
            ("timestamp", str (H.clock w.clockReads)), ("metadata", obj md)])
          "metadata"
        = some (jsonText (obj md)) ∧
      jsonText (logEntry "error" message (H.clock w.clockReads) (obj md))
        = objectText
            (jsonMembers [("level", str "error"), ("message", message),
              ("timestamp", str (H.clock w.clockReads)), ("metadata", obj md)]) ∧
      jsonText (obj md) = objectText (jsonMembers md) ∧
      (∀ k v, getOwn m k = some v → getOwn (jsonMembers md) k = stringify v) ∧
      (getOwn m "error" = none → getOwn (jsonMembers md) "error" = stringify e) := by
  have hmem : ∀ k v, getOwn m k = some v →
      getOwn ((ownProps (obj m)).foldl (fun acc kv => setProp acc kv.1 kv.2) [("error", e)]) k
        = some v := by
    intro k v hk
    simp only [ownProps]
    rw [getOwn_foldl_setProp _ (uniqueKeys_orderKeys m), getOwn_orderKeys, hk]
  have herr : getOwn m "error" = none →
      getOwn ((ownProps (obj m)).foldl (fun acc kv => setProp acc kv.1 kv.2) [("error", e)])
        "error" = some e := by
    intro hk
    simp only [ownProps]
    rw [getOwn_foldl_setProp _ (uniqueKeys_orderKeys m), getOwn_orderKeys, hk]
    simp [getOwn]
  obtain ⟨hf1, hf2, hf3, hf4, hf5⟩ :=
    forward_frame H L w "error" message (errorMetadata e (obj m))
  refine ⟨_, rfl, hmem, herr, rfl, rfl, ?_, ?_, ?_, jsonText_obj _, jsonText_obj _, ?_, ?_⟩
  · simp only [Logger.error, Logger.writeToLogFile, Logger.compressLogFile]
    split <;> [split; skip] <;> exact hf5
  · intro hp
    simp only [Logger.error, Logger.writeToLogFile, Logger.compressLogFile, hp, if_true, hf1, hf3]
    split <;> simp [appendFile, errorMetadata]
  · rw [getOwn_jsonMembers]
    simp [getOwn, jsonText, stringify, serialize]
  · intro k v hk
    rw [getOwn_jsonMembers, hmem k v hk]
    rfl
  · intro hk
    rw [getOwn_jsonMembers, herr hk]
    rfl

/-- C6 (counterexample): `error("boom", "E", {error: 1})` emits and persists a record
whose metadata holds `1`, not the error value `"E"`, under the key `error`;
`error("boom", undefined, {foo: 1})` persists a metadata without the key `error`; and
`error("boom", new Error("x"), {foo: 1})` persists the empty object under `error`. -/
theorem error_metadata_overridden :
    errorMetadata (str "E") (obj [("error", num 1)]) = obj [("error", num 1)] ∧
    getOwn [("error", num 1)] "error" ≠ some (str "E") ∧
    ((sampleLogger 5).error refHost emptyWorld (str "boom") (str "E")
        (obj [("error", num 1)])).files "logs/app.log"
      = some ("\x7b\"level\":\"error\",\"message\":\"boom\",\"timestamp\":\"2024-01-01T00:00:00.000Z\","
          ++ "\"metadata\":\x7b\"error\":1\x7d\x7d\n") ∧
    ((sampleLogger 5).error refHost emptyWorld (str "boom") undefined
        (obj [("foo", num 1)])).files "logs/app.log"
      = some ("\x7b\"level\":\"error\",\"message\":\"boom\",\"timestamp\":\"2024-01-01T00:00:00.000Z\","
          ++ "\"metadata\":\x7b\"foo\":1\x7d\x7d\n") ∧
    ((sampleLogger 5).error refHost emptyWorld (str "boom") (errorObject "x")
        (obj [("foo", num 1)])).files "logs/app.log"
      = some ("\x7b\"level\":\"error\",\"message\":\"boom\",\"timestamp\":\"2024-01-01T00:00:00.000Z\","
          ++ "\"metadata\":\x7b\"error\":\x7b\x7d,\"foo\":1\x7d\x7d\n") := by
  refine ⟨rfl, by simp [getOwn], by decide, by decide, by decide⟩

/-- The order of the keys is the order of JavaScript: the elements of an array given as
metadata come before `error`. -/
theorem errorMetadata_array :
    errorMetadata (str "E") (arr [num 7, num 8])
      = obj [("0", num 7), ("1", num 8), ("error", str "E")] ∧
    jsonText (errorMetadata (str "E") (arr [num 7, num 8]))
      = "\x7b\"0\":7,\"1\":8,\"error\":\"E\"\x7d" ∧
    jsonText (obj [("b", num 1), ("10", num 2), ("9", num 3), ("b", num 4), ("01", num 5)])
      = "\x7b\"9\":3,\"10\":2,\"b\":1,\"01\":5\x7d" := by
  refine ⟨rfl, by decide, by decide⟩

/-! ## The console line -/

/-- A truthy value of the model has a JSON text. -/
theorem stringify_of_truthy (v : JSValue) (h : truthy v = true) : ∃ j, stringify v = some j := by
  cases v with
  | undefined => simp [truthy] at h
  | null => simp [truthy] at h
  | boolean b => cases b <;> simp [stringify, serialize]
  | num n => simp [stringify, serialize]
  | str s => simp [stringify, serialize]
  | arr xs => simp [stringify, serialize]
  | obj ps => simp [stringify, serialize]
  | errorObject m => simp [stringify, serialize]

/-- The printf template alone: the line is `[<timestamp>] [<LEVEL>]: <message> `
followed by the JSON encoding of the value bound to `metadata` when that value is truthy
and by the empty string when it is `undefined`, `null`, `false`, `0` or the empty
string. -/
theorem logFormat_line (H : Host) (level message timestamp : String) (metadata : JSValue) :
    (metadata ≠ undefined ∧ metadata ≠ null ∧ metadata ≠ boolean false ∧ metadata ≠ num 0 ∧
        metadata ≠ str "" →
      ∃ j, stringify metadata = some j ∧
        logFormat H level message timestamp metadata
          = "[" ++ timestamp ++ "] [" ++ H.toUpperCase level ++ "]: " ++ message ++ " " ++ j) ∧
    (metadata = undefined ∨ metadata = null ∨ metadata = boolean false ∨ metadata = num 0 ∨
        metadata = str "" →
      logFormat H level message timestamp metadata
        = "[" ++ timestamp ++ "] [" ++ H.toUpperCase level ++ "]: " ++ message ++ " " ++ "") := by
  constructor
  · rintro ⟨h1, h2, h3, h4, h5⟩
    have ht : truthy metadata = true := by
      cases metadata with
      | undefined => exact absurd rfl h1
      | null => exact absurd rfl h2
      | boolean b =>
        cases b
        · exact absurd rfl h3
        · rfl
      | num n =>
        have : n ≠ 0 := fun e => h4 (by rw [e])
        simp [truthy, this]
      | str s =>
        have : s ≠ "" := fun e => h5 (by rw [e])
        simp [truthy, this]
      | arr xs => rfl
      | obj ps => rfl
      | errorObject m => rfl
    obtain ⟨j, hj⟩ := stringify_of_truthy metadata ht
    exact ⟨j, hj, by simp [logFormat, ht, jsonText, hj]⟩
  · intro h
    have hf : truthy metadata = false := by
      rcases h with h | h | h | h | h <;> subst h <;> simp [truthy]
    simp [logFormat, hf]

theorem sinkMetadata_absent (ps : Props) (h : getOwn ps "metadata" = none) :
    sinkMetadata (obj ps) = undefined := by
  simp [sinkMetadata, ownProps, getOwn_orderKeys, h]

/-- C10 (the code at a failing input): for the call `log("started", {a: 1})` the console
line is `[<timestamp>] [INFO]: started ` and ends there, although the metadata is present
and its JSON encoding is `{"a":1}`: winston copies the properties of the metadata into
the info object, so the template finds no `metadata` there.  The same holds for every
call whose metadata object has no own key `metadata` (nor `level`, `message` or
`timestamp`); only a metadata wrapped as `{metadata: ...}` is printed. -/
theorem console_line_without_metadata :
    (defaultLogger.log refHost freshWorld (str "started") (obj [("a", num 1)])).console
      = ["[2024-01-01 00:00:00] [INFO]: started "] ∧
    stringify (obj [("a", num 1)]) = some "\x7b\"a\":1\x7d" ∧
    (defaultLogger.log refHost freshWorld (str "started")
        (obj [("metadata", obj [("a", num 1)])])).console
      = ["[2024-01-01 00:00:00] [INFO]: started \x7b\"a\":1\x7d"] ∧
    (∀ (H : Host) (k : Nat) (level : String) (message : JSValue) (ps : Props),
      getOwn ps "metadata" = none → getOwn ps "level" = none →
      getOwn ps "message" = none → getOwn ps "timestamp" = none →
      sinkLine H k level message (obj ps)
        = "[" ++ H.sinkTimestamp k ++ "] [" ++ H.toUpperCase level ++ "]: " ++ toText message
          ++ " " ++ "") := by
  refine ⟨by decide, by decide, by decide, ?_⟩
  intro H k level message ps h1 _ _ _
  have hu : truthy undefined = false := rfl
  simp [sinkLine, sinkMetadata_absent _ h1, logFormat, hu]

/-! ## Retrieval -/

theorem filterLevel_objects (level : JSValue) (records : List JSValue)
    (h : ∀ r ∈ records, ∃ ps, r = obj ps) :
    filterLevel level records
      = .ok (records.filter (fun r => strictEq (prop r "level") level)) := by
  induction records with
  | nil => rfl
  | cons r rs ih =>
    obtain ⟨ps, rfl⟩ := h r (List.mem_cons_self _ _)
    have ih1 := ih (fun x hx => h x (List.mem_cons_of_mem _ hx))
    simp only [filterLevel, member, ih1, List.filter, prop]
    split <;> simp_all

/-- C1, as amended: for every file content whose non-empty lines all parse as JSON
objects and for every supplied level `L` that is truthy (any non-empty string),
`getLogs({level: L})` returns exactly the records of `getLogs()` whose `level` field
equals `L`, in the order of the file; when no options are given, or the level supplied
is falsy (the empty string, `0`, `null`, `false`, `undefined`), it returns all records in
file order. -/
theorem getLogs_level (H : Host) (Lg : Logger) (w : World) (logContents : String)
    (records : List JSValue) (options : Props)
    (hfile : w.files Lg.logFile = some logContents)
    (hparse : parseAll H (nonEmptyLines logContents) = .ok records)
    (hrec : ∀ r ∈ records, ∃ ps, r = obj ps) :
    Lg.getLogs H w undefined = .ok records ∧
    (truthy (prop (obj options) "level") = true →
      Lg.getLogs H w (obj options)
        = .ok (records.filter (fun r => strictEq (prop r "level") (prop (obj options) "level")))) ∧
    (truthy (prop (obj options) "level") = false →
      Lg.getLogs H w (obj options) = .ok records) := by
  have hp : parseAll H ((splitLines logContents).filter (fun line => line != "")) = .ok records :=
    hparse
  have hu : truthy undefined = false := rfl
  have ho : truthy (obj options) = true := rfl
  refine ⟨?_, ?_, ?_⟩
  · simp [Logger.getLogs, hfile, getLogsOf, hp, hu]
  · intro ht
    simp [Logger.getLogs, hfile, getLogsOf, hp, ho, ht, filterLevel_objects _ _ hrec]
  · intro hf
    simp [Logger.getLogs, hfile, getLogsOf, hp, ho, hf]

/-- C1 (counterexample): on the file with the one record `{"level":"info"}`, the call
`getLogs({level: ""})` returns that record, whose level is not the level supplied. -/
theorem getLogs_empty_level :
    getLogsOf refHost "\x7b\"level\":\"info\"\x7d\n" (obj [("level", str "")])
      = .ok [obj [("level", str "info")]] ∧
    strictEq (prop (obj [("level", str "info")]) "level") (str "") = false ∧
    getLogsOf refHost "\x7b\"level\":\"info\"\x7d\n" undefined = .ok [obj [("level", str "info")]] := by
  refine ⟨rfl, rfl, rfl⟩

theorem getLogs_level_witness :
    (sampleLogger 5).getLogs refHost
        (worldWithLog ("\x7b\"level\":\"info\",\"message\":\"a\"\x7d\n"
          ++ "\x7b\"level\":\"warn\",\"message\":\"b\"\x7d\n\n"
          ++ "\x7b\"level\":\"error\",\"message\":\"c\"\x7d\n"
          ++ "\x7b\"level\":\"warn\",\"message\":\"d\"\x7d\n"))
        (obj [("level", str "warn")])
      = .ok [obj [("level", str "warn"), ("message", str "b")],
          obj [("level", str "warn"), ("message", str "d")]] :=
  (getLogs_level refHost (sampleLogger 5)
    (worldWithLog ("\x7b\"level\":\"info\",\"message\":\"a\"\x7d\n"
      ++ "\x7b\"level\":\"warn\",\"message\":\"b\"\x7d\n\n"
      ++ "\x7b\"level\":\"error\",\"message\":\"c\"\x7d\n"
      ++ "\x7b\"level\":\"warn\",\"message\":\"d\"\x7d\n"))
    ("\x7b\"level\":\"info\",\"message\":\"a\"\x7d\n"
      ++ "\x7b\"level\":\"warn\",\"message\":\"b\"\x7d\n\n"
      ++ "\x7b\"level\":\"error\",\"message\":\"c\"\x7d\n"
      ++ "\x7b\"level\":\"warn\",\"message\":\"d\"\x7d\n")
    [obj [("level", str "info"), ("message", str "a")],
      obj [("level", str "warn"), ("message", str "b")],
      obj [("level", str "error"), ("message", str "c")],
      obj [("level", str "warn"), ("message", str "d")]]
    [("level", str "warn")] rfl rfl
    (by
      intro r hr
      simp only [List.mem_cons, List.mem_singleton, List.not_mem_nil, or_false] at hr
      rcases hr with h | h | h | h <;> exact ⟨_, h⟩)).2.1 rfl

theorem parseAll_error (H : Host) (lines : List String) (line : String) (hmem : line ∈ lines)
    (hbad : ∃ e, H.parse line = .error e) : ∃ e, parseAll H lines = .error e := by
  induction lines with
  | nil => simp at hmem
  | cons l ls ih =>
    cases hl : H.parse l with
    | error e => exact ⟨e, by simp [parseAll, hl]⟩
    | ok v =>
      have hin : line ∈ ls := by
        rcases List.mem_cons.mp hmem with h | h
        · obtain ⟨e, he⟩ := hbad
          rw [h, hl] at he
          cases he
        · exact h
      obtain ⟨e, he⟩ := ih hin
      exact ⟨e, by simp [parseAll, hl, he]⟩

theorem parseAll_ok (H : Host) (lines : List String)
    (hall : ∀ line ∈ lines, ∃ v, H.parse line = .ok v) :
    ∃ records, parseAll H lines = .ok records ∧ records.length = lines.length := by
  induction lines with
  | nil => exact ⟨[], rfl, rfl⟩
  | cons l ls ih =>
    obtain ⟨v, hv⟩ := hall l (List.mem_cons_self _ _)
    obtain ⟨vs, hvs, hlen⟩ := ih (fun x hx => hall x (List.mem_cons_of_mem _ hx))
    exact ⟨v :: vs, by simp [parseAll, hv, hvs], by simp [hlen]⟩

/-- C3: `getLogs` fails for the whole call, returning no list, whenever at least one
non-empty line of the active file is not valid JSON, wherever the line sits, however many
other lines are valid and whatever the options; and empty lines never cause a failure:
when every non-empty line is valid JSON the call without a filter returns one record for
each non-empty line, also when the parser rejects the empty string. -/
theorem getLogs_malformed_line (H : Host) (Lg : Logger) (w : World) (logContents : String)
    (hfile : w.files Lg.logFile = some logContents) :
    (∀ line ∈ splitLines logContents, line ≠ "" → (∃ e, H.parse line = .error e) →
      ∀ options, ∃ e, Lg.getLogs H w options = .error e) ∧
    ((∀ line ∈ splitLines logContents, line ≠ "" → ∃ v, H.parse line = .ok v) →
      ∃ records, Lg.getLogs H w undefined = .ok records ∧
        records.length = (nonEmptyLines logContents).length) := by
  constructor
  · intro line hmem hne hbad options
    have hin : line ∈ (splitLines logContents).filter (fun line => line != "") := by
      simp [List.mem_filter, hmem, hne]
    obtain ⟨e, he⟩ := parseAll_error H _ line hin hbad
    exact ⟨e, by simp [Logger.getLogs, hfile, getLogsOf, he]⟩
  · intro hall
    have hall1 : ∀ line ∈ (splitLines logContents).filter (fun line => line != ""),
        ∃ v, H.parse line = .ok v := by
      intro line hl
      simp only [List.mem_filter, bne_iff_ne, ne_eq] at hl
      exact hall line hl.1 hl.2
    obtain ⟨records, hr, hlen⟩ := parseAll_ok H _ hall1
    have hu : truthy undefined = false := rfl
    exact ⟨records, by simp [Logger.getLogs, hfile, getLogsOf, hr, hu], hlen⟩

theorem getLogs_malformed_line_witness :
    (∃ e, (sampleLogger 5).getLogs refHost
        (worldWithLog "\x7b\"level\":\"info\"\x7d\n\nnot json\n\x7b\"level\":\"warn\"\x7d\n")
        (obj [("level", str "warn")]) = .error e) ∧
    (∃ records, (sampleLogger 5).getLogs refHost
        (worldWithLog "\n\x7b\"level\":\"info\"\x7d\n\n\n") undefined = .ok records ∧
      records.length = 1) :=
  ⟨(getLogs_malformed_line refHost (sampleLogger 5)
      (worldWithLog "\x7b\"level\":\"info\"\x7d\n\nnot json\n\x7b\"level\":\"warn\"\x7d\n")
      "\x7b\"level\":\"info\"\x7d\n\nnot json\n\x7b\"level\":\"warn\"\x7d\n" rfl).1
      "not json" (by decide) (by decide) ⟨_, rfl⟩ (obj [("level", str "warn")]),
    (getLogs_malformed_line refHost (sampleLogger 5)
      (worldWithLog "\n\x7b\"level\":\"info\"\x7d\n\n\n")
      "\n\x7b\"level\":\"info\"\x7d\n\n\n" rfl).2
      (by
        intro line hl hne
        have h : line = "" ∨ line = "\x7b\"level\":\"info\"\x7d" := by
          have : splitLines "\n\x7b\"level\":\"info\"\x7d\n\n\n"
              = ["", "\x7b\"level\":\"info\"\x7d", "", "", ""] := by decide
          rw [this] at hl
          simp only [List.mem_cons, List.mem_singleton, List.not_mem_nil, or_false] at hl
          rcases hl with h | h | h | h | h <;> simp [h]
        rcases h with h | h
        · exact absurd h hne
        · exact ⟨obj [("level", str "info")], by rw [h]; rfl⟩)⟩

/-! ## The persistence flag -/

/-- The value the constructor gives `this.persistLogs` is truthy for every
configuration: `config.persistLogs || true`. -/
theorem persistLogs_truthy (H : Host) (w : World) (config : JSValue) (L : Logger) (w1 : World)
    (h : Logger.construct H w config = .ok (L, w1)) : truthy L.persistLogs = true := by
  unfold Logger.construct at h
  cases ho : resolveOptions H config with
  | error e => simp [ho] at h
  | ok o =>
    have hp : truthy o.persistLogs = true := by
      unfold resolveOptions at ho
      split at ho
      · cases ho
      · have := Except.ok.inj ho
        subst this
        simp only [jsOr]
        split
        · assumption
        · rfl
    simp only [ho] at h
    split at h
    · have := (Prod.mk.inj (Except.ok.inj h)).1
      subst this
      exact hp
    · cases h
    · cases h

/-- C5 (the code at a failing input): the logger constructed with `persistLogs: false`
holds `true` in `this.persistLogs`, and its first `log("hello")` appends the record to
the active file, which was empty. -/
theorem persistLogs_false_appends :
    ∃ L w, Logger.construct refHost emptyWorld (obj [("persistLogs", boolean false)]) = .ok (L, w) ∧
      L.persistLogs = boolean true ∧
      w.files L.logFile = some "" ∧
      (L.log refHost w (str "hello") undefined).files L.logFile
        = some ("\x7b\"level\":\"info\",\"message\":\"hello\","
            ++ "\"timestamp\":\"2024-01-01T00:00:00.000Z\"\x7d\n") :=
  ⟨_, _, rfl, rfl, by decide, by decide⟩

/-! ## Emission and retrieval -/

theorem digitChar_ne_newline : ∀ m, m < 10 → Nat.digitChar m ≠ '\n' := by
  decide

theorem toDigitsCore_noNL (fuel : Nat) : ∀ (n : Nat) (acc : List Char),
    '\n' ∉ acc → '\n' ∉ Nat.toDigitsCore 10 fuel n acc := by
  induction fuel with
  | zero => intro n acc h; simpa [Nat.toDigitsCore] using h
  | succ f ih =>
    intro n acc h
    simp only [Nat.toDigitsCore]
    have h1 : '\n' ∉ Nat.digitChar (n % 10) :: acc := by
      simp only [List.mem_cons, not_or]
      exact ⟨fun e => digitChar_ne_newline _ (Nat.mod_lt _ (by decide)) e.symm, h⟩
    split
    · exact h1
    · exact ih _ _ h1

theorem toDigits_noNL (n : Nat) : '\n' ∉ Nat.toDigits 10 n := by
  unfold Nat.toDigits
  exact toDigitsCore_noNL _ _ _ (by simp)

theorem numberToString_noNL (n : Int) : '\n' ∉ numberToString n := by
  cases n with
  | ofNat m => exact toDigits_noNL m
  | negSucc m =>
    simp only [numberToString, List.mem_cons, not_or]
    exact ⟨by decide, toDigits_noNL _⟩

theorem hexDigit_ne_newline : ∀ m, m < 16 → hexDigit m ≠ '\n' := by
  decide

theorem escapeChar_noNL (c : Char) : '\n' ∉ escapeChar c := by
  unfold escapeChar
  split_ifs with h1 h2 h3 h4 h5 h6 h7 h8
  all_goals try decide
  · have ha : c.toNat / 16 < 16 := by omega
    have hb : c.toNat % 16 < 16 := by omega
    simp only [List.mem_cons, List.mem_singleton, List.not_mem_nil, not_or, or_false]
    refine ⟨by decide, by decide, by decide, by decide, ?_, ?_⟩
    · exact fun e => hexDigit_ne_newline _ ha e.symm
    · exact fun e => hexDigit_ne_newline _ hb e.symm
  · simp only [List.mem_singleton]
    exact fun e => h5 e.symm

theorem quoteJSON_noNL (s : String) : '\n' ∉ quoteJSON s := by
  simp only [quoteJSON, List.mem_cons, List.mem_append, List.mem_flatMap, List.mem_singleton,
    List.not_mem_nil, not_or, or_false]
  refine ⟨by decide, ?_, by decide⟩
  rintro ⟨c, _, hc⟩
  exact escapeChar_noNL c hc

theorem commaJoin_noNL : ∀ (ss : List (List Char)), (∀ s ∈ ss, '\n' ∉ s) → '\n' ∉ commaJoin ss
  | [], _ => by simp [commaJoin]
  | [x], h => by simpa [commaJoin] using h x (List.mem_singleton_self _)
  | x :: y :: rest, h => by
    simp only [commaJoin, List.mem_append, List.mem_cons, not_or]
    refine ⟨h x (List.mem_cons_self _ _), by decide, ?_⟩
    exact commaJoin_noNL (y :: rest) (fun s hs => h s (List.mem_cons_of_mem _ hs))

theorem mem_insertIndex {α : Type} (i : Nat) (k : String) (v : α) (ps : List (String × α))
    (x : String × α) (h : x ∈ insertIndex i k v ps) : x = (k, v) ∨ x ∈ ps := by
  induction ps with
  | nil => simpa [insertIndex] using h
  | cons kv ps ih =>
    obtain ⟨k0, v0⟩ := kv
    simp only [insertIndex] at h
    split at h
    · split at h
      · rcases List.mem_cons.mp h with h1 | h1
        · exact Or.inr (by simp [h1])
        · rcases ih h1 with h2 | h2
          · exact Or.inl h2
          · exact Or.inr (List.mem_cons_of_mem _ h2)
      · rcases List.mem_cons.mp h with h1 | h1
        · exact Or.inl h1
        · exact Or.inr h1
    · rcases List.mem_cons.mp h with h1 | h1
      · exact Or.inl h1
      · exact Or.inr h1

theorem mem_orderStep {α : Type} (acc : List (String × α)) (kv x : String × α)
    (h : x ∈ orderStep acc kv) : x ∈ acc ∨ x = kv := by
  unfold orderStep at h
  split at h
  · exact Or.inl h
  · unfold insertProp at h
    split at h
    · rcases mem_insertIndex _ _ _ _ _ h with h1 | h1
      · exact Or.inr h1
      · exact Or.inl h1
    · rcases List.mem_append.mp h with h1 | h1
      · exact Or.inl h1
      · exact Or.inr (by simpa using h1)

theorem mem_foldl_orderStep {α : Type} (ps : List (String × α)) :
    ∀ (acc : List (String × α)) (x : String × α),
      x ∈ ps.foldl orderStep acc → x ∈ acc ∨ x ∈ ps := by
  induction ps with
  | nil => intro acc x h; exact Or.inl h
  | cons kv ps ih =>
    intro acc x h
    rcases ih _ x h with h1 | h1
    · rcases mem_orderStep _ _ _ h1 with h2 | h2
      · exact Or.inl h2
      · exact Or.inr (by simp [h2])
    · exact Or.inr (List.mem_cons_of_mem _ h1)

theorem mem_orderKeys {α : Type} (ps : List (String × α)) (x : String × α)
    (h : x ∈ orderKeys ps) : x ∈ ps := by
  rcases mem_foldl_orderStep ps [] x h with h1 | h1
  · simp at h1
  · exact h1

theorem memberTexts_noNL (l : List (String × Option (List Char)))
    (h : ∀ k t, (k, some t) ∈ l → '\n' ∉ t) : ∀ s ∈ memberTexts l, '\n' ∉ s := by
  induction l with
  | nil => intro s hs; simp [memberTexts] at hs
  | cons kt l ih =>
    obtain ⟨k0, o⟩ := kt
    have ih1 := ih (fun k t hm => h k t (List.mem_cons_of_mem _ hm))
    cases o with
    | none => simpa [memberTexts] using ih1
    | some t =>
      intro s hs
      simp only [memberTexts, List.mem_cons] at hs
      rcases hs with hs | hs
      · subst hs
        simp only [List.mem_append, List.mem_cons, not_or]
        exact ⟨quoteJSON_noNL k0, by decide, h k0 t (List.mem_cons_self _ _)⟩
      · exact ih1 s hs

mutual
theorem serialize_noNL : ∀ (v : JSValue) (s : List Char), serialize v = some s → '\n' ∉ s
  | undefined, s, h => by simp [serialize] at h
  | null, s, h => by
    simp only [serialize, Option.some.injEq] at h
    subst h; decide
  | boolean true, s, h => by
    simp only [serialize, Option.some.injEq] at h
    subst h; decide
  | boolean false, s, h => by
    simp only [serialize, Option.some.injEq] at h
    subst h; decide
  | num n, s, h => by
    simp only [serialize, Option.some.injEq] at h
    subst h; exact numberToString_noNL n
  | str t, s, h => by
    simp only [serialize, Option.some.injEq] at h
    subst h; exact quoteJSON_noNL t
  | arr xs, s, h => by
    simp only [serialize, Option.some.injEq] at h
    subst h
    simp only [List.mem_cons, List.mem_append, List.mem_singleton, List.not_mem_nil, not_or,
      or_false]
    exact ⟨by decide, commaJoin_noNL _ (serializeElems_noNL xs), by decide⟩
  | obj ps, s, h => by
    simp only [serialize, Option.some.injEq] at h
    subst h
    simp only [List.mem_cons, List.mem_append, List.mem_singleton, List.not_mem_nil, not_or,
      or_false]
    refine ⟨by decide, commaJoin_noNL _ (memberTexts_noNL _ ?_), by decide⟩
    intro k t hm
    exact serializePairs_noNL ps k t (mem_orderKeys _ _ hm)
  | errorObject m, s, h => by
    simp only [serialize, Option.some.injEq] at h
    subst h; decide
theorem serializeElems_noNL : ∀ (xs : List JSValue), ∀ s ∈ serializeElems xs, '\n' ∉ s
  | [], s, h => by simp [serializeElems] at h
  | x :: xs, s, h => by
    simp only [serializeElems, List.mem_cons] at h
    rcases h with h | h
    · subst h
      cases hx : serialize x with
      | none => simp
      | some t => simpa using serialize_noNL x t hx
    · exact serializeElems_noNL xs s h
theorem serializePairs_noNL : ∀ (ps : List (String × JSValue)) (k : String) (t : List Char),
    (k, some t) ∈ serializePairs ps → '\n' ∉ t
  | [], k, t, h => by simp [serializePairs] at h
  | (k0, v) :: ps, k, t, h => by
    simp only [serializePairs, List.mem_cons, Prod.mk.injEq] at h
    rcases h with h | h
    · exact serialize_noNL v t h.2.symm
    · exact serializePairs_noNL ps k t h
end

theorem splitChars_append_sep (sep : Char) (l rest : List Char) (h : sep ∉ l) :
    splitChars sep (l ++ sep :: rest) = l :: splitChars sep rest := by
  induction l with
  | nil => simp [splitChars]
  | cons c cs ih =>
    have hc : ¬ c = sep := fun e => h (by simp [e])
    have hcs : sep ∉ cs := fun e => h (List.mem_cons_of_mem _ e)
    simp [splitChars, hc, ih hcs]

theorem splitLines_concatLines (texts : List String) (h : ∀ t ∈ texts, '\n' ∉ t.data) :
    splitLines (concatLines texts) = texts ++ [""] := by
  induction texts with
  | nil => rfl
  | cons t ts ih =>
    have h1 : '\n' ∉ t.data := h t (List.mem_cons_self _ _)
    have ih1 := ih (fun x hx => h x (List.mem_cons_of_mem _ hx))
    simp only [splitLines] at ih1 ⊢
    have hd : (concatLines (t :: ts)).data = t.data ++ '\n' :: (concatLines ts).data := by
      simp [concatLines, String.data_append]
    rw [hd, splitChars_append_sep _ _ _ h1, List.map_cons, ih1]
    rfl

theorem filter_nonEmpty (texts : List String) (h : ∀ t ∈ texts, t ≠ "") :
    (texts ++ [""]).filter (fun line => line != "") = texts := by
  induction texts with
  | nil => rfl
  | cons t ts ih =>
    have h1 : (t != "") = true := by
      simpa using h t (List.mem_cons_self _ _)
    simp only [List.cons_append, List.filter_cons, h1, if_true,
      ih (fun x hx => h x (List.mem_cons_of_mem _ hx))]

theorem jsonText_obj_line (ps : Props) :
    '\n' ∉ (jsonText (obj ps)).data ∧ jsonText (obj ps) ≠ "" := by
  have h : serialize (obj ps)
      = some ('{' :: (commaJoin (memberTexts (orderKeys (serializePairs ps))) ++ ['}'])) := by
    simp [serialize]
  have hn := serialize_noNL (obj ps) _ h
  constructor
  · simpa [jsonText, stringify, h] using hn
  · intro e
    have := congrArg String.data e
    simp [jsonText, stringify, h] at this

theorem perform_eq (H : Host) (L : Logger) (w : World) (c : Call) :
    L.perform H w c
      = L.writeToLogFile H (L.forward H w c.level c.message c.metadata) c.level c.message
          c.metadata := by
  cases c <;> rfl

theorem perform_files (H : Host) (L : Logger) (w : World) (c : Call)
    (hp : truthy L.persistLogs = true) (hz : truthy L.compressLogs = false) :
    (L.perform H w c).files L.logFile
        = some ((w.files L.logFile).getD "" ++ (jsonText (c.entry H w.clockReads) ++ "\n")) ∧
      (L.perform H w c).clockReads = w.clockReads + 1 := by
  rw [perform_eq]
  obtain ⟨hf1, _, hf3, _, _⟩ := forward_frame H L w c.level c.message c.metadata
  simp [Logger.writeToLogFile, hp, hz, hf1, hf3, appendFile, Call.entry]

theorem performAll_files (H : Host) (L : Logger) (hp : truthy L.persistLogs = true)
    (hz : truthy L.compressLogs = false) (calls : List Call) :
    ∀ (w : World) (content : String), w.files L.logFile = some content →
      (L.performAll H w calls).files L.logFile
        = some (content ++ concatLines ((entries H w.clockReads calls).map jsonText)) := by
  induction calls with
  | nil =>
    intro w content h
    simp [Logger.performAll, entries, concatLines, h]
  | cons c cs ih =>
    intro w content h
    obtain ⟨hf, hk⟩ := perform_files H L w c hp hz
    rw [h] at hf
    have := ih (L.perform H w c) _ hf
    simp only [Logger.performAll, List.foldl_cons] at this ⊢
    rw [this, hk]
    simp [entries, concatLines, String.append_assoc]

theorem parseAll_image (H : Host) (es : List JSValue)
    (h : ∀ e ∈ es, H.parse (jsonText e) = .ok (jsonImage e)) :
    parseAll H (es.map jsonText) = .ok (es.map jsonImage) := by
  induction es with
  | nil => rfl
  | cons e es ih =>
    simp [parseAll, h e (List.mem_cons_self _ _), ih (fun x hx => h x (List.mem_cons_of_mem _ hx))]

theorem entries_get (H : Host) (calls : List Call) :
    ∀ (k i : Nat) (c : Call), calls.get? i = some c →
      (entries H k calls).get? i = some (c.entry H (k + i)) := by
  induction calls with
  | nil => intro k i c h; simp at h
  | cons d ds ih =>
    intro k i c h
    cases i with
    | zero =>
      simp only [List.get?_cons_zero, Option.some.injEq] at h
      subst h
      simp [entries]
    | succ j =>
      simp only [List.get?_cons_succ] at h
      have := ih (k + 1) j c h
      simp only [entries, List.get?_cons_succ, this]
      congr 2
      omega

theorem entries_length (H : Host) (calls : List Call) :
    ∀ k, (entries H k calls).length = calls.length := by
  induction calls with
  | nil => intro k; rfl
  | cons d ds ih => intro k; simp [entries, ih]

theorem entries_obj (H : Host) (calls : List Call) :
    ∀ k, ∀ e ∈ entries H k calls, ∃ ps, e = obj ps := by
  induction calls with
  | nil => intro k e h; simp [entries] at h
  | cons d ds ih =>
    intro k e h
    simp only [entries, List.mem_cons] at h
    rcases h with h | h
    · exact ⟨_, h⟩
    · exact ih _ e h

theorem getOwn_jsonImagePairs (ps : Props) (k : String) :
    getOwn (jsonImagePairs ps) k = (getOwn ps k).map jsonImage := by
  induction ps with
  | nil => simp [jsonImagePairs, getOwn]
  | cons kv ps ih =>
    obtain ⟨k0, v0⟩ := kv
    by_cases h : k0 = k
    · simp [jsonImagePairs, getOwn, h]
    · simp [jsonImagePairs, getOwn, h, ih]

theorem getOwn_filter_defined (l : Props) (hu : UniqueKeys l) (k : String) :
    (getOwn (l.filter (fun kv => isDefined kv.2)) k).getD undefined
      = (getOwn l k).getD undefined := by
  induction l with
  | nil => rfl
  | cons kv l ih =>
    obtain ⟨k0, v0⟩ := kv
    obtain ⟨h0, h1⟩ := hu
    have ih1 := ih h1
    by_cases hd : isDefined v0 = true
    · by_cases hk : k0 = k
      · simp [List.filter, hd, getOwn, hk]
      · simp [List.filter, hd, getOwn, hk, ih1]
    · have hv : v0 = undefined := by
        cases v0 <;> simp [isDefined] at hd ⊢
      subst hv
      have hf : List.filter (fun kv : String × JSValue => isDefined kv.2) ((k0, undefined) :: l)
          = List.filter (fun kv => isDefined kv.2) l := by
        simp [List.filter, isDefined]
      rw [hf]
      by_cases hk : k0 = k
      · subst hk
        rw [h0] at ih1
        simp [getOwn, ih1]
      · simp [getOwn, hk, ih1]

/-- A property of the value a JSON text denotes is the image of the property. -/
theorem prop_jsonImage_obj (ps : Props) (k : String) :
    prop (jsonImage (obj ps)) k = ((getOwn ps k).map jsonImage).getD undefined := by
  simp only [jsonImage, prop, member]
  rw [getOwn_filter_defined _ (uniqueKeys_orderKeys _), getOwn_orderKeys, getOwn_jsonImagePairs]

theorem jsonImage_entry (level : String) (message : JSValue) (timestamp : String)
    (metadata : JSValue) :
    prop (jsonImage (logEntry level message timestamp metadata)) "level" = str level ∧
    prop (jsonImage (logEntry level message timestamp metadata)) "message" = jsonImage message ∧
    prop (jsonImage (logEntry level message timestamp metadata)) "metadata" = jsonImage metadata := by
  simp only [logEntry, prop_jsonImage_obj]
  refine ⟨?_, ?_, ?_⟩ <;> simp [getOwn, jsonImage]

theorem construct_fresh (H : Host) (w0 : World) (config : JSValue) (L : Logger) (w : World)
    (h : Logger.construct H w0 config = .ok (L, w)) :
    w.files L.logFile = some "" ∧ w.clockReads = w0.clockReads := by
  unfold Logger.construct at h
  split at h
  · cases h
  · split at h
    · have h1 := Prod.mk.inj (Except.ok.inj h)
      rw [← h1.2, ← h1.1]
      simp [Logger.cleanupOldLogFiles, Logger.createLogFile, writeFile]
    · cases h
    · cases h

/-- The append path alone, before the File transport writes: on a freshly constructed
logger with compression disabled, after any sequence of `n` calls to `log`, `warn` and
`error`, and given a `JSON.parse` that reads each written line back as the value it
denotes, `getLogs()` returns `n` records in call order, the `i`-th with the level of the
`i`-th call and the JSON images of its message and metadata. -/
theorem getLogs_before_sink_write (H : Host) (w0 : World) (config : JSValue) (L : Logger) (w : World)
    (calls : List Call)
    (hc : Logger.construct H w0 config = .ok (L, w))
    (hz : truthy L.compressLogs = false)
    (hjson : ∀ e ∈ entries H w.clockReads calls, H.parse (jsonText e) = .ok (jsonImage e)) :
    ∃ records, L.getLogs H (L.performAll H w calls) undefined = .ok records ∧
      records.length = calls.length ∧
      ∀ i c, calls.get? i = some c →
        ∃ r, records.get? i = some r ∧
          prop r "level" = str c.level ∧
          prop r "message" = jsonImage c.message ∧
          prop r "metadata" = jsonImage c.metadata ∧
          (jsonImage c.message = c.message → prop r "message" = c.message) ∧
          (jsonImage c.metadata = c.metadata → prop r "metadata" = c.metadata) := by
  obtain ⟨hfresh, _⟩ := construct_fresh H w0 config L w hc
  have hp := persistLogs_truthy H w0 config L w hc
  have hfiles := performAll_files H L hp hz calls w "" hfresh
  have hline : ∀ t ∈ (entries H w.clockReads calls).map jsonText, '\n' ∉ t.data ∧ t ≠ "" := by
    intro t ht
    obtain ⟨e, he, rfl⟩ := List.mem_map.mp ht
    obtain ⟨ps, rfl⟩ := entries_obj H calls _ e he
    exact jsonText_obj_line ps
  have hsplit := splitLines_concatLines _ (fun t ht => (hline t ht).1)
  have hfilter := filter_nonEmpty _ (fun t ht => (hline t ht).2)
  have hu : truthy undefined = false := rfl
  refine ⟨(entries H w.clockReads calls).map jsonImage, ?_, ?_, ?_⟩
  · simp only [Logger.getLogs, hfiles, getLogsOf, String.empty_append]
    rw [hsplit, hfilter, parseAll_image H _ hjson]
    simp [hu]
  · simp [entries_length]
  · intro i c hi
    have hg := entries_get H calls w.clockReads i c hi
    obtain ⟨h1, h2, h3⟩ :=
      jsonImage_entry c.level c.message (H.clock (w.clockReads + i)) c.metadata
    refine ⟨jsonImage (c.entry H (w.clockReads + i)), ?_, h1, h2, h3, ?_, ?_⟩
    · simp only [List.get?_eq_getElem?] at hg ⊢
      simp [hg]
    · intro h; rw [← h]; exact h2
    · intro h; rw [← h]; exact h3

theorem getLogs_before_sink_write_example :
    ∃ records,
      defaultLogger.getLogs refHost
          (defaultLogger.performAll refHost freshWorld
            [.log (str "hello") undefined, .warn (str "disk") (obj [("free", num 3)]),
              .error (str "boom") (str "E") (obj [("foo", num 1)])])
          undefined = .ok records ∧
      records.length = 3 :=
  let ⟨records, h1, h2, _⟩ := getLogs_before_sink_write refHost emptyWorld (obj []) defaultLogger
    freshWorld
    [.log (str "hello") undefined, .warn (str "disk") (obj [("free", num 3)]),
      .error (str "boom") (str "E") (obj [("foo", num 1)])]
    rfl rfl
    (by
      intro e he
      have hl : entries refHost freshWorld.clockReads
          [.log (str "hello") undefined, .warn (str "disk") (obj [("free", num 3)]),
            .error (str "boom") (str "E") (obj [("foo", num 1)])]
          = [logEntry "info" (str "hello") "2024-01-01T00:00:00.000Z" undefined,
              logEntry "warn" (str "disk") "2024-01-01T00:00:00.001Z" (obj [("free", num 3)]),
              logEntry "error" (str "boom") "2024-01-01T00:00:00.002Z"
                (obj [("error", str "E"), ("foo", num 1)])] := by rfl
      rw [hl] at he
      simp only [List.mem_cons, List.mem_singleton, List.not_mem_nil, or_false] at he
      rcases he with h | h | h <;> rw [h] <;> rfl)
  ⟨records, h1, h2⟩

/-- C2 (the code at a failing input): on the logger `new Logger({})`, right after
`log("hello")` the active file holds the one JSON record and `getLogs()` returns it; the
File transport of winston, which `initializeLogger` gave the same path, has taken the
formatted line, and once it has written it the active file holds that line after the
record and `getLogs()` fails. -/
theorem getLogs_after_sink_write :
    Logger.construct refHost emptyWorld (obj []) = .ok (defaultLogger, freshWorld) ∧
    defaultLogger.initializeLogger.filename = defaultLogger.logFile ∧
    defaultLogger.getLogs refHost
        (defaultLogger.log refHost freshWorld (str "hello") undefined) undefined
      = .ok [obj [("level", str "info"), ("message", str "hello"),
          ("timestamp", str "2024-01-01T00:00:00.000Z")]] ∧
    (defaultLogger.log refHost freshWorld (str "hello") undefined).sinkQueue
      = ["[2024-01-01 00:00:00] [INFO]: hello "] ∧
    (defaultLogger.flushSink
        (defaultLogger.log refHost freshWorld (str "hello") undefined)).files
        "/srv/app/logs/app.log"
      = some ("\x7b\"level\":\"info\",\"message\":\"hello\","
          ++ "\"timestamp\":\"2024-01-01T00:00:00.000Z\"\x7d\n"
          ++ "[2024-01-01 00:00:00] [INFO]: hello \n") ∧
    defaultLogger.getLogs refHost
        (defaultLogger.flushSink
          (defaultLogger.log refHost freshWorld (str "hello") undefined)) undefined
      = .error "SyntaxError: Unexpected token in JSON" := by
  refine ⟨rfl, rfl, rfl, by decide, by decide, rfl⟩

/-! ## The compression cycle -/

theorem writeToLogFile_busy (H : Host) (L : Logger) (w : World) (level : String)
    (message metadata : JSValue)
    (hp : truthy L.persistLogs = true) (hz : truthy L.compressLogs = true)
    (hcr : w.crashed = false)
    (hsrc : ∀ src dst, Task.compress src dst ∈ w.pending → src = L.logFile) :
    Busy L (L.writeToLogFile H w level message metadata) := by
  simp only [Logger.writeToLogFile, hp, hz, if_true, Logger.compressLogFile]
  refine ⟨hcr, by simp [appendFile], ?_, ?_⟩
  · intro src dst hmem
    simp only [List.mem_append, List.mem_singleton] at hmem
    rcases hmem with h | h
    · exact hsrc src dst h
    · cases h; rfl
  · exact ⟨Task.compress L.logFile (L.logFile ++ ".gz"), by simp, by intro dir h; cases h⟩

theorem log_busy (H : Host) (L : Logger) (w : World) (message metadata : JSValue)
    (hp : truthy L.persistLogs = true) (hz : truthy L.compressLogs = true)
    (hcr : w.crashed = false)
    (hsrc : ∀ src dst, Task.compress src dst ∈ w.pending → src = L.logFile) :
    Busy L (L.log H w message metadata) := by
  obtain ⟨_, hf2, _, hf4, _⟩ := forward_frame H L w "info" message metadata
  exact writeToLogFile_busy H L _ _ _ _ hp hz (by rw [hf4, hcr]) (by rw [hf2]; exact hsrc)

theorem error_busy (H : Host) (L : Logger) (w : World) (message e metadata : JSValue)
    (hp : truthy L.persistLogs = true) (hz : truthy L.compressLogs = true)
    (hcr : w.crashed = false)
    (hsrc : ∀ src dst, Task.compress src dst ∈ w.pending → src = L.logFile) :
    Busy L (L.error H w message e metadata) := by
  obtain ⟨_, hf2, _, hf4, _⟩ := forward_frame H L w "error" message (errorMetadata e metadata)
  exact writeToLogFile_busy H L _ _ _ _ hp hz (by rw [hf4, hcr]) (by rw [hf2]; exact hsrc)

theorem runTask_busy (H : Host) (L : Logger) (w : World) (i : Nat)
    (hp : truthy L.persistLogs = true) (hz : truthy L.compressLogs = true)
    (hb : Busy L w) : Busy L (L.runTask H w i) := by
  obtain ⟨hcr, hfile, hsrc, t0, ht0, hnr⟩ := hb
  unfold Logger.runTask
  rw [if_neg (by simp [hcr])]
  cases hget : w.pending.get? i with
  | none => exact ⟨hcr, hfile, hsrc, t0, ht0, hnr⟩
  | some t =>
    have htmem : t ∈ w.pending := List.get?_mem hget
    have hsrc1 : ∀ src dst, Task.compress src dst ∈ w.pending.eraseIdx i → src = L.logFile :=
      fun src dst h => hsrc src dst (List.mem_of_mem_eraseIdx h)
    cases t with
    | readdir dir =>
      simp only [Logger.complete, Logger.onReaddir]
      cases H.readdir w.files dir with
      | error err => exact error_busy H L _ _ _ _ hp hz hcr hsrc1
      | ok files =>
        dsimp only
        refine ⟨hcr, hfile, ?_, ?_⟩
        · intro src dst hmem
          simp only [List.mem_append, List.mem_map] at hmem
          rcases hmem with h | ⟨f, _, h⟩
          · exact hsrc1 src dst h
          · cases h
        · refine ⟨t0, ?_, hnr⟩
          simp only [List.mem_append]
          left
          rw [List.mem_eraseIdx_iff_getElem?]
          obtain ⟨j, hj⟩ := List.get?_of_mem ht0
          refine ⟨j, ?_, by simpa [List.get?_eq_getElem?] using hj⟩
          intro hji
          subst hji
          rw [hj] at hget
          exact hnr dir (Option.some.inj hget)
    | unlink filePath =>
      simp only [Logger.complete, Logger.onUnlink]
      cases w.files filePath with
      | none => exact error_busy H L _ _ _ _ hp hz hcr hsrc1
      | some content => exact log_busy H L _ _ _ hp hz hcr hsrc1
    | compress src dst =>
      have hs : src = L.logFile := hsrc src dst htmem
      subst hs
      simp only [Logger.complete, Logger.onStreamEnd]
      cases hc : w.files L.logFile with
      | none => simp [hc] at hfile
      | some content =>
        dsimp only
        refine ⟨hcr, ?_, ?_, ?_⟩
        · simp only [writeFile]
          split
          · rfl
          · simp [hc]
        · intro src dst hmem
          simp only [List.mem_append, List.mem_singleton] at hmem
          rcases hmem with h | h
          · exact hsrc1 src dst h
          · cases h
        · exact ⟨Task.unlink L.logFile, by simp, by intro dir h; cases h⟩

/-- The write of the File transport does not end the cycle either. -/
theorem flushSink_busy (L : Logger) (w : World) (hb : Busy L w) : Busy L (L.flushSink w) := by
  obtain ⟨hcr, hfile, hsrc, ht⟩ := hb
  refine ⟨hcr, ?_, hsrc, ht⟩
  have key : ∀ (lines : List String) (files : String → Option String),
      (files L.logFile).isSome = true →
      ((lines.foldl (fun files line =>
          appendFile files L.initializeLogger.filename (line ++ "\n")) files) L.logFile).isSome
        = true := by
    intro lines
    induction lines with
    | nil => intro files h; exact h
    | cons l ls ih =>
      intro files h
      apply ih
      simp only [appendFile]
      split
      · rfl
      · exact h
  exact key _ _ hfile

theorem runTasks_busy (H : Host) (L : Logger) (schedule : List Nat)
    (hp : truthy L.persistLogs = true) (hz : truthy L.compressLogs = true) :
    ∀ w, Busy L w → Busy L (L.runTasks H w schedule) := by
  induction schedule with
  | nil => intro w hb; exact hb
  | cons i rest ih =>
    intro w hb
    simp only [Logger.runTasks, List.foldl_cons]
    exact ih _ (runTask_busy H L w i hp hz hb)

theorem construct_pending (H : Host) (w0 : World) (config : JSValue) (L : Logger) (w : World)
    (h : Logger.construct H w0 config = .ok (L, w)) :
    w.pending = w0.pending ++ [Task.readdir (H.pathDirname L.logFile)] ∧
      w.crashed = w0.crashed := by
  unfold Logger.construct at h
  split at h
  · cases h
  · split at h
    · have h1 := Prod.mk.inj (Except.ok.inj h)
      rw [← h1.2, ← h1.1]
      simp [Logger.cleanupOldLogFiles, Logger.createLogFile]
    · cases h
    · cases h

/-- C7 (the code, for every fresh logger with compression on): after one `log` call the
system never settles.  Whatever operations complete and in whatever order, an
asynchronous operation is still in flight, the process is alive and the active file
exists: each deletion of the active file is logged, which writes the file again and
starts the next compression. -/
theorem compression_never_settles (H : Host) (w0 : World) (config : JSValue) (L : Logger)
    (w : World) (message metadata : JSValue) (schedule : List Nat)
    (hc : Logger.construct H w0 config = .ok (L, w))
    (hz : truthy L.compressLogs = true)
    (h0 : w0.pending = []) (hcr : w0.crashed = false) :
    ¬ (L.runTasks H (L.log H w message metadata) schedule).settled ∧
    ((L.runTasks H (L.log H w message metadata) schedule).files L.logFile).isSome = true ∧
    (L.runTasks H (L.log H w message metadata) schedule).crashed = false := by
  have hp := persistLogs_truthy H w0 config L w hc
  obtain ⟨hpend, hcrw⟩ := construct_pending H w0 config L w hc
  have hb : Busy L (L.log H w message metadata) := by
    apply log_busy H L w message metadata hp hz (by rw [hcrw, hcr])
    intro src dst hmem
    rw [hpend, h0] at hmem
    simp at hmem
  obtain ⟨h1, h2, _, t, ht, _⟩ := runTasks_busy H L schedule hp hz _ hb
  refine ⟨?_, h2, h1⟩
  intro hs
  rw [World.settled] at hs
  rw [hs] at ht
  simp at ht

theorem compression_never_settles_witness :
    Logger.construct refHost emptyWorld (obj [("compressLogs", boolean true)])
      = .ok (compressingLogger, freshWorld) ∧
    (compressingLogger.log refHost freshWorld (str "hello") undefined).pending
      = [Task.readdir "/srv/app/logs",
          Task.compress "/srv/app/logs/app.log" "/srv/app/logs/app.log.gz"] ∧
    (compressingLogger.runTasks refHost
        (compressingLogger.log refHost freshWorld (str "hello") undefined) [1, 1]).pending
      = [Task.readdir "/srv/app/logs",
          Task.compress "/srv/app/logs/app.log" "/srv/app/logs/app.log.gz"] ∧
    (compressingLogger.runTasks refHost
        (compressingLogger.log refHost freshWorld (str "hello") undefined) [1, 1]).files
        "/srv/app/logs/app.log"
      = some ("\x7b\"level\":\"info\",\"message\":\"Deleted log file '/srv/app/logs/app.log'\","
          ++ "\"timestamp\":\"2024-01-01T00:00:00.001Z\"\x7d\n") ∧
    (¬ (compressingLogger.runTasks refHost
        (compressingLogger.log refHost freshWorld (str "hello") undefined)
        [1, 1, 0, 0, 0, 0]).settled ∧
      ((compressingLogger.runTasks refHost
        (compressingLogger.log refHost freshWorld (str "hello") undefined)
        [1, 1, 0, 0, 0, 0]).files compressingLogger.logFile).isSome = true ∧
      (compressingLogger.runTasks refHost
        (compressingLogger.log refHost freshWorld (str "hello") undefined)
        [1, 1, 0, 0, 0, 0]).crashed = false) :=
  ⟨rfl, by decide, by decide, by decide,
    compression_never_settles refHost emptyWorld (obj [("compressLogs", boolean true)])
      compressingLogger freshWorld (str "hello") undefined [1, 1, 0, 0, 0, 0] rfl rfl rfl rfl⟩

end AdvancedLogger
